import Mathlib

/-!
Verification of the single-pass Django-models-to-GORM translation engine
(`convert` in `django_to_gorm.py`).

Lines of text are modelled as `List Char`.  The Python string operations the
program uses (`strip`, `split`, `replace`, `startswith`, `endswith`, `in`,
`lower`, `upper`, `capitalize`, `strip(chars)`) are embedded as executable
functions on `List Char` with Python semantics on the ASCII inputs the
program manipulates.  The scanning loop is embedded as a fold of a `step`
function over the input lines, acting on an explicit state record that holds
exactly the mutable variables of `convert`.  A mid-scan unhandled exception
(`sys.exit` / an uncaught `IndexError`), after which the program writes no
output file, is modelled by an `aborted` flag; `convertLines` returns `none`
in that case.
-/

/-- A line of text, as a list of characters. -/
abbrev Line : Type := List Char

/-- Shorthand: a Lean string literal as a `Line`. -/
def strL (s : String) : Line := s.toList

/-- The whitespace test of Python `str.strip()` (ASCII range). -/
def pyIsSpace (c : Char) : Bool :=
  c = ' ' || c = '\t' || c = '\n' || c = '\r' || c = '\x0b' || c = '\x0c'

/-- Remove trailing characters satisfying `p` (helper for `pyStrip`). -/
def dropTrail (p : Char → Bool) : Line → Line
  | [] => []
  | c :: t =>
    match dropTrail p t with
    | [] => if p c then [] else [c]
    | r => c :: r

/-- Python `str.strip()`: remove leading and trailing whitespace. -/
def pyStrip (l : Line) : Line := dropTrail pyIsSpace (l.dropWhile pyIsSpace)

/-- Python `str.strip(c)` for a single character argument. -/
def pyStripChar (c : Char) (l : Line) : Line :=
  dropTrail (fun x => x = c) (l.dropWhile (fun x => x = c))

/-- Python `str.split(sep)` for a one-character separator: split on every
occurrence, keeping empty segments; `"".split(sep) == [""]`. -/
def pySplit1 (sep : Char) : Line → List Line
  | [] => [[]]
  | c :: t =>
    if c = sep then [] :: pySplit1 sep t
    else
      match pySplit1 sep t with
      | [] => [[c]]
      | r :: rs => (c :: r) :: rs

/-- List indexing with the empty line as default (Python indexing is only
reached by the program where the index is in range; out-of-range accesses are
modelled separately as exceptions at the call sites that can raise). -/
def idx (xs : List Line) (i : Nat) : Line := xs.getD i []

/-- Python `pat in s` (substring containment). -/
def containsSub (s pat : Line) : Bool :=
  pat.isPrefixOf s ||
    match s with
    | [] => false
    | _ :: t => containsSub t pat

/-- Fuel-driven worker for `pyReplace` (fuel bounds the scan length so the
definition is structural and kernel-reducible). -/
def pyReplaceAux (d e : Line) : Nat → Line → Line
  | 0, s => s
  | _ + 1, [] => []
  | n + 1, c :: t =>
    if d.isPrefixOf (c :: t) then e ++ pyReplaceAux d e n (List.drop (d.length - 1) t)
    else c :: pyReplaceAux d e n t

/-- Python `s.replace(d, e)` for a non-empty pattern `d`: replace every
non-overlapping occurrence of `d` in `s` by `e`, scanning left to right and
not rescanning replacement text.  (The program only ever replaces non-empty
patterns; for `d = []` this returns `s` unchanged.) -/
def pyReplace (d e : Line) (s : Line) : Line :=
  if d.isEmpty then s else pyReplaceAux d e s.length s

/-- Python `str.lower()` (ASCII). -/
def pyLower (l : Line) : Line := l.map Char.toLower

/-- Python `str.upper()` (ASCII). -/
def pyUpper (l : Line) : Line := l.map Char.toUpper

/-- Python `str.capitalize()` (ASCII): first character upper-cased, all
remaining characters lower-cased. -/
def pyCapitalize : Line → Line
  | [] => []
  | c :: t => Char.toUpper c :: t.map Char.toLower

/-- The scalar-type translation table `TYPE_MAP`. -/
def typeMap : List (Line × Line) :=
  [ (strL "BooleanField", strL "bool"),
    (strL "IntegerField", strL "int"),
    (strL "BigIntegerField", strL "int64"),
    (strL "CharField", strL "string"),
    (strL "TextField", strL "string"),
    (strL "DateTimeField", strL "time.Time"),
    (strL "NullBooleanField", strL "sql.NullBool"),
    (strL "BinaryField", strL "byte[]") ]

/-- The `IMPORTS` scaffolding block, split on newlines exactly as
`IMPORTS.split('\n')` yields it. -/
def importsLines : List Line :=
  [ strL "package main", strL "", strL "import", strL "(",
    strL "\t\"gorm.io/gorm\"",
    strL "\t// Enable one from below as needed, postgres included as default",
    strL "\t\"gorm.io/driver/postgres\"",
    strL "\t// \"gorm.io/driver/mysql\"",
    strL "\t// \"gorm.io/driver/sqlite\"",
    strL "\t\"time\"", strL "\t\"fmt\"", strL "\t\"database/sql\"",
    strL ")", strL "", strL "" ]

/-- The `TABLE_HELPER` scaffolding block, split on newlines. -/
def tableHelperLines : List Line :=
  [ strL "", strL "type Tabler interface \x7b", strL "\tTableName() string",
    strL "\x7d", strL "", strL "" ]

/-- The `USER_MODEL` scaffolding block, split on newlines (whitespace exactly
as in the source). -/
def userModelLines : List Line :=
  [ strL "",
    strL "type User struct \x7b",
    strL "\tID\t\t        int64\t\t`gorm:\"primaryKey\"`",
    strL "\tEmail\t        string\t    `gorm:\"column:email\"`",
    strL "\tFirst_name\t    string\t    `gorm:\"column:first_name\"`",
    strL "\tLast_name\t    string\t    `gorm:\"column:last_name\"`",
    strL "\tIs_superuser\tbool        `gorm:\"column:is_superuser\"`",
    strL "\tIs_staff\t    bool        `gorm:\"column:is_staff\"`",
    strL "\tDate_joined     time.Time   `gorm:\"column:date_joined\"`",
    strL "\x7d",
    strL "",
    strL "func(User) TableName() string \x7b",
    strL "\treturn \"auth_user\"",
    strL "\x7d",
    strL "",
    strL "" ]

/-- The `GROUP_MODEL` scaffolding block, split on newlines. -/
def groupModelLines : List Line :=
  [ strL "",
    strL "type Group struct \x7b",
    strL "\tID\t\t        int64\t\t`gorm:\"primaryKey\"`",
    strL "\tName\t        string\t    `gorm:\"column:name\"`",
    strL "\x7d",
    strL "",
    strL "func(Group) TableName() string \x7b",
    strL "\treturn \"auth_group\"",
    strL "\x7d",
    strL "",
    strL "" ]

/-- The mutable scan state of `convert` (one field per local variable of the
scanning loop, plus the `aborted` flag modelling a fatal mid-scan exit). -/
structure ConvState where
  out_lines : List Line
  current_model : List Line
  last_model_closed : Bool
  got_custom_tables : Bool
  in_model_def : Bool
  model_name : Line
  default_table_name : Line
  table_name : Line
  custom_table_name : Bool
  found_user_table : Bool
  found_group_table : Bool
  prev_line : Line
  lineno : Nat
  errors : List Line
  aborted : Bool
  deriving Repr, DecidableEq

/-- The initial scan state. -/
def initState : ConvState :=
  { out_lines := [], current_model := [], last_model_closed := false,
    got_custom_tables := false, in_model_def := false, model_name := [],
    default_table_name := [], table_name := [], custom_table_name := false,
    found_user_table := false, found_group_table := false, prev_line := [],
    lineno := 1, errors := [], aborted := false }

/-- The four lines of the `TableName` type-accessor emitted for a model with
an explicit table name. -/
def accessorLines (mn tn : Line) : List Line :=
  [ strL "func (" ++ mn ++ strL ") TableName() string \x7b",
    strL "\treturn \"" ++ tn ++ strL "\"",
    strL "\x7d",
    [] ]

/-- `__close_model_def`: the lines appended to the running output when the
current declaration buffer is closed.  The closing brace and a blank line are
appended first; with an explicit table name the accessor is appended and
every line then undergoes the literal substitution of the default table name
by the explicit one. -/
def closeBlock (s : ConvState) : List Line :=
  let cm := s.current_model ++ [strL "\x7d", []]
  if s.custom_table_name then
    (cm ++ accessorLines s.model_name s.table_name).map
      (pyReplace s.default_table_name s.table_name)
  else cm

/-- The declaration-start test: `l.startswith('class') and
l.endswith('Model):')` on the stripped line. -/
def classStartB (l : Line) : Bool :=
  (strL "class").isPrefixOf l && (strL "Model):").isSuffixOf l

/-- The explicit-table-name recognition test: the line mentions `db_table`
and an equals sign, does not start with `#`, and the previous stripped line
contains `class Meta:` as a substring. -/
def dbTableCondB (l prevL : Line) : Bool :=
  containsSub l (strL "db_table") && containsSub l (strL "=") &&
    !((strL "#").isPrefixOf l) && containsSub prevL (strL "class Meta:")

/-- The quote-stripping chain applied to the right-hand side of a `db_table`
assignment. -/
def extractTableName (l : Line) : Line :=
  pyReplace (strL "\x27") []
    (pyReplace (strL "\"") []
      (pyReplace (strL "u\x27") []
        (pyReplace (strL "u\"") [] (pyStrip (idx (pySplit1 '=' l) 1)))))

/-- The declaration name extracted from a declaration-start line:
`l.split(' ')[1].split('(')[0]`. -/
def extractedName (l : Line) : Line :=
  idx (pySplit1 '(' (idx (pySplit1 ' ' l) 1)) 0

/-- The line number rendered in diagnostics. -/
def lineNumStr (n : Nat) : Line := (toString n).toList

/-- The body of the field translator once the assignment has been split at
`=` into the field name and the right-hand side (`l` is the whole stripped
line, used by the containment checks and diagnostics). -/
def fieldCore (s : ConvState) (l field_name rhs : Line) : ConvState :=
  let dp := pySplit1 '.' rhs
  if dp.length < 2 then
    -- `split('.')[1]` raises IndexError: the enclosing `except` block
    if containsSub l (strL "TreeForeignKey") then
      { s with
        errors := s.errors ++ [lineNumStr s.lineno ++ strL ": " ++ l],
        current_model := s.current_model ++
          [strL "\t// !! Unhandled item in line " ++ lineNumStr s.lineno ++
            strL ", original: " ++ l] }
    else { s with aborted := true }
  else
    let d1 := idx dp 1
    let field_type := pyStrip (idx (pySplit1 '(' d1) 0)
    if (field_name = strL "id" || field_name = strL "pk" ||
        field_name = strL "ID" || field_name = strL "PK") &&
        containsSub l (strL "primary_key") then
      { s with current_model := s.current_model ++
          [strL "\t" ++ pyUpper field_name ++
            strL "\t\tint64\t\t`gorm:\"primaryKey\"`"] }
    else
      match List.lookup field_type typeMap with
      | some gotype =>
        { s with current_model := s.current_model ++
            [strL "\t" ++ pyCapitalize field_name ++ strL "\t\t" ++ gotype ++
              strL "\t`gorm:\"column:" ++ field_name ++ strL "\"`"] }
      | none =>
        let ps := pySplit1 '(' (pyStrip d1)
        let fkeymodel :=
          if ps.length < 2 then strL "########"
          else pyStripChar ')' (pyStrip (idx (pySplit1 ',' (pyStrip (idx ps 1))) 0))
        if field_type = strL "ForeignKey" then
          { s with current_model := s.current_model ++
              [ strL "\t" ++ pyCapitalize field_name ++ strL "ID\t\tint64\t" ++
                  strL "`gorm:\"foreignKey:" ++ field_name ++
                  strL "_id;association_foreignkey:id\"`",
                strL "\t" ++ pyCapitalize field_name ++ strL "\t\t" ++ fkeymodel ] }
        else if field_type = strL "ManyToManyField" then
          { s with current_model := s.current_model ++
              [ strL "\t\\ !! NOTE: m2m key relationship/name may not work",
                strL "\t" ++ pyCapitalize field_name ++ strL "\t\t[]" ++ fkeymodel ++
                  strL "\t" ++ strL "`gorm:\"many2many:" ++ s.table_name ++
                  strL "_" ++ field_name ++ strL ";joinForeignKey:" ++
                  s.table_name ++ strL "_id\"`" ] }
        else if field_type = strL "OneToOneField" then
          { s with current_model := s.current_model ++
              [ strL "\t" ++ pyCapitalize field_name ++ strL "ID\t\tint64\t" ++
                  strL "`gorm:\"foreignKey:" ++ field_name ++ strL "_id\"`",
                strL "\t" ++ pyCapitalize field_name ++ strL "\t\t" ++ fkeymodel ] }
        else if containsSub l (strL "getLogger") then s
        else if (strL ",").isSuffixOf s.prev_line ||
                (strL "\\").isSuffixOf s.prev_line then s
        else
          { s with
            errors := s.errors ++
              [lineNumStr s.lineno ++ strL ": Unknown/unhandled line: " ++ field_type],
            current_model := s.current_model ++
              [strL "\t// !! unknown type in line " ++ lineNumStr s.lineno ++
                strL ", original: " ++ l] }

/-- The field-translation step: the body of the
`'=' in l and 'models.' in l` branch of the loop, covering the primary-key
shortcut, the scalar table, the three relationship kinds, the silently
skipped patterns, the recoverable diagnostics and the fatal parse failure. -/
def processField (s : ConvState) (l : Line) : ConvState :=
  let fp := pySplit1 '=' l
  fieldCore s l (pyStrip (idx fp 0)) (pyStrip (idx fp 1))

/-- One iteration of the scanning loop on a raw input line. -/
def step (s : ConvState) (raw : Line) : ConvState :=
  if s.aborted then s
  else
    let s1 :=
      if (strL "def ").isPrefixOf raw && s.in_model_def then
        { s with in_model_def := false,
                 out_lines := s.out_lines ++ closeBlock s,
                 last_model_closed := true, current_model := [] }
      else s
    let l := pyStrip raw
    let s2 :=
      if classStartB l then
        let s1b :=
          if s1.in_model_def then
            { s1 with out_lines := s1.out_lines ++ closeBlock s1,
                      last_model_closed := true, current_model := [] }
          else s1
        let parts := pySplit1 ' ' l
        if parts.length < 2 then
          -- `l.split(' ')[1]` raises an uncaught IndexError
          { s1b with in_model_def := true, last_model_closed := false,
                     aborted := true }
        else
          let mn := idx (pySplit1 '(' (idx parts 1)) 0
          let tn := strL "app_" ++ pyLower mn ++ strL "s"
          { s1b with in_model_def := true, last_model_closed := false,
                     model_name := mn,
                     found_user_table := s1b.found_user_table || (mn = strL "User"),
                     found_group_table := s1b.found_group_table || (mn = strL "Group"),
                     table_name := tn, default_table_name := tn,
                     custom_table_name := false,
                     current_model := s1b.current_model ++
                       [strL "type " ++ mn ++ strL " struct \x7b"] }
      else if s1.in_model_def then
        if dbTableCondB l s1.prev_line then
          { s1 with custom_table_name := true, got_custom_tables := true,
                    table_name := extractTableName l }
        else if (strL "\"\"\"").isPrefixOf l then
          { s1 with current_model := s1.current_model ++
              [strL "\t// " ++ pyReplace (strL "\"\"\"") [] l] }
        else if (strL "#").isPrefixOf l then
          { s1 with current_model := s1.current_model ++
              [strL "\t// " ++ pyReplace (strL "#") [] l] }
        else if containsSub l (strL "=") && containsSub l (strL "models.") then
          processField s1 l
        else s1
      else s1
    { s2 with prev_line := l, lineno := s2.lineno + 1 }

/-- The state after scanning all input lines. -/
def runLines (ins : List Line) : ConvState := ins.foldl step initState

/-- The state after the trailing `if last_model_closed is False` close. -/
def finalState (ins : List Line) : ConvState :=
  let s := runLines ins
  if s.aborted then s
  else if s.last_model_closed then s
  else { s with out_lines := s.out_lines ++ closeBlock s }

/-- The scaffolding blocks prepended to the emitted declarations. -/
def outPrefix (s : ConvState) (includeHelpers autoUser autoGroup : Bool) :
    List Line :=
  (if includeHelpers then importsLines else []) ++
  (if s.got_custom_tables then tableHelperLines else []) ++
  (if !s.found_user_table && autoUser then userModelLines else []) ++
  (if !s.found_group_table && autoGroup then groupModelLines else [])

/-- The result of a completed conversion: the output lines (scaffolding
followed by the emitted declarations) and the diagnostics list. -/
structure ConvResult where
  lines : List Line
  errors : List Line
  deriving Repr, DecidableEq

/-- The whole conversion on in-memory input lines.  `none` models a fatal
mid-scan exit, after which the program writes no output file. -/
def convertLines (ins : List Line) (includeHelpers autoUser autoGroup : Bool) :
    Option ConvResult :=
  let s := finalState ins
  if s.aborted then none
  else some { lines := outPrefix s includeHelpers autoUser autoGroup ++ s.out_lines,
              errors := s.errors }

/-- Sanity conditions on a source field name under which a field-assignment
line parses cleanly: non-empty, stable under stripping, free of the `=` and
`.` separators, not opening a comment or docstring, and not one of the
primary-key aliases. -/
def NameOk (name : Line) : Prop :=
  name ≠ [] ∧ pyStrip name = name ∧ '=' ∉ name ∧ '.' ∉ name ∧
  name.head? ≠ some '"' ∧ name.head? ≠ some '#' ∧
  name ≠ strL "id" ∧ name ≠ strL "pk" ∧ name ≠ strL "ID" ∧ name ≠ strL "PK"

instance (name : Line) : Decidable (NameOk name) := by
  unfold NameOk
  infer_instance

/-- Sanity conditions on a related-declaration name appearing as the first
constructor argument: non-empty, stable under stripping, and free of the
separator characters the extraction splits or strips on. -/
def RelOk (rel : Line) : Prop :=
  rel ≠ [] ∧ pyStrip rel = rel ∧ '=' ∉ rel ∧ '.' ∉ rel ∧ '(' ∉ rel ∧
  ')' ∉ rel ∧ ',' ∉ rel

instance (rel : Line) : Decidable (RelOk rel) := by
  unfold RelOk
  infer_instance

/-- The counterexample input for the late-`db_table` rewrite: the explicit
identifier `app_foos2` contains the default identifier `app_foos`. -/
def c1input : List Line :=
  [ strL "class Foo(models.Model):",
    strL "    name = models.CharField(max_length=10)",
    strL "    class Meta:",
    strL "        db_table = \"app_foos2\"" ]

/-- The result of converting `c1input` (no scaffolding toggles). -/
def c1res : ConvResult := (convertLines c1input false false false).getD ⟨[], []⟩

/-- A buffered declaration with an explicit table name sharing no character
with the default one (witness state for the amended late-rewrite claim). -/
def c1wstate : ConvState :=
  { initState with
      custom_table_name := true, in_model_def := true,
      model_name := strL "Foo", default_table_name := strL "app_foos",
      table_name := strL "xyz",
      current_model :=
        [ strL "type Foo struct \x7b",
          strL "\tName\t\tstring\t`gorm:\"column:name\"`" ] }

/-- A buffered declaration without an explicit table name (witness state for
the no-accessor close). -/
def c2wstate : ConvState :=
  { initState with
      in_model_def := true, model_name := strL "Foo",
      default_table_name := strL "app_foos", table_name := strL "app_foos",
      current_model :=
        [ strL "type Foo struct \x7b",
          strL "\tName\t\tstring\t`gorm:\"column:name\"`" ] }

/-- Input whose single declaration has no explicit table name. -/
def c2input : List Line :=
  [ strL "class Foo(models.Model):",
    strL "    name = models.CharField(max_length=10)" ]

/-- Input with a relationship constructor whose arguments are malformed (no
parenthesised argument list at all). -/
def c4input : List Line :=
  [ strL "class Foo(models.Model):",
    strL "    user = models.ForeignKey" ]

/-- An open-declaration state whose previous stripped line contains the
metadata-block marker as a proper substring (not exactly the marker). -/
def c6state : ConvState :=
  { initState with
      in_model_def := true, model_name := strL "Foo",
      default_table_name := strL "app_foos", table_name := strL "app_foos",
      prev_line := strL "class Meta: # options",
      current_model := [strL "type Foo struct \x7b"] }

/-- Input in which a blank line separates the metadata-block marker from the
`db_table` assignment. -/
def c6input2 : List Line :=
  [ strL "class Foo(models.Model):",
    strL "    class Meta:",
    strL "",
    strL "        db_table = \"custom\"" ]

/-- An input declaring models named `UserProfile` and `Users` (but not
`User` or `Group`). -/
def exOtherNames : List Line :=
  [ strL "class UserProfile(models.Model):",
    strL "    name = models.CharField(max_length=10)",
    strL "class Users(models.Model):" ]

/-- The opening line of the default identity declaration. -/
def headerTarget : Line := strL "type User struct \x7b"

/-- Invariant maintained by the scan over an input with no `User`-named
declaration: the found-identity flag is unset, no emitted output line is the
identity-declaration header, and the declaration buffer has the shape that
guarantees the close-time rewrite cannot fabricate that header (the header
of the current declaration followed by tab-indented lines, with the default
table identifier derived from the current name).  An aborted state
trivially satisfies the invariant because no output is produced. -/
def NoUserInv (s : ConvState) : Prop :=
  s.aborted = true ∨
  (s.found_user_table = false ∧
   s.out_lines.countP (fun ln => decide (ln = headerTarget)) = 0 ∧
   (s.in_model_def = true →
      s.model_name ≠ strL "User" ∧
      s.default_table_name = strL "app_" ++ pyLower s.model_name ++ strL "s" ∧
      ∃ rest, s.current_model =
          (strL "type " ++ s.model_name ++ strL " struct \x7b") :: rest ∧
        ∀ ln ∈ rest, ln.head? = some '\t') ∧
   (s.in_model_def = false →
      s.current_model = [] ∧
      (s.custom_table_name = false ∨ s.last_model_closed = true)))

/-! ### Basic lemmas about the string primitives -/

/-- `containsSub` decides substring containment. -/
theorem containsSub_iff {s pat : Line} : containsSub s pat = true ↔ pat <:+: s := by
  induction s with
  | nil =>
    simp [containsSub, List.isPrefixOf_iff_prefix, List.prefix_nil, List.infix_nil]
  | cons c t ih =>
    rw [containsSub]
    simp [List.isPrefixOf_iff_prefix, ih, List.infix_cons_iff]

/-- Substring containment of a one-character pattern is membership. -/
theorem singleton_infix_iff {c : Char} {s : Line} : [c] <:+: s ↔ c ∈ s := by
  constructor
  · intro h
    exact h.subset (List.mem_singleton_self c)
  · intro h
    obtain ⟨u, v, rfl⟩ := List.append_of_mem h
    exact ⟨u, v, by simp⟩

/-- `pySplit1` never returns the empty list. -/
theorem pySplit1_ne_nil (sep : Char) (s : Line) : pySplit1 sep s ≠ [] := by
  induction s with
  | nil => simp [pySplit1]
  | cons c t ih =>
    rw [pySplit1]
    split
    · simp
    · match h : pySplit1 sep t with
      | [] => exact absurd h ih
      | r :: rs => simp

/-- Splitting a separator-free line yields that line alone. -/
theorem pySplit1_of_not_mem {sep : Char} {s : Line} (h : sep ∉ s) :
    pySplit1 sep s = [s] := by
  induction s with
  | nil => rfl
  | cons c t ih =>
    rw [pySplit1]
    have hc : ¬c = sep := fun he => h (he ▸ List.mem_cons_self c t)
    rw [if_neg hc, ih (fun hm => h (List.mem_cons_of_mem c hm))]

/-- Splitting at the first separator occurrence. -/
theorem pySplit1_append {sep : Char} {a b : Line} (h : sep ∉ a) :
    pySplit1 sep (a ++ sep :: b) = a :: pySplit1 sep b := by
  induction a with
  | nil => simp [pySplit1]
  | cons c a' ih =>
    have hc : ¬c = sep := fun he => h (he ▸ List.mem_cons_self c a')
    have ih' := ih (fun hm => h (List.mem_cons_of_mem c hm))
    rw [List.cons_append, pySplit1, if_neg hc, ih']

/-- `dropTrail` keeps a head that fails the predicate. -/
theorem dropTrail_cons_of_neg {p : Char → Bool} {c : Char} {t : Line}
    (h : p c = false) : dropTrail p (c :: t) = c :: dropTrail p t := by
  rw [dropTrail]
  match hm : dropTrail p t with
  | [] => simp [h]
  | r :: rs => rfl

/-- `dropTrail` removes a trailing character satisfying the predicate. -/
theorem dropTrail_append_pos {p : Char → Bool} {c : Char} (a : Line)
    (h : p c = true) : dropTrail p (a ++ [c]) = dropTrail p a := by
  induction a with
  | nil => simp [dropTrail, h]
  | cons x a' ih =>
    rw [List.cons_append, dropTrail, ih, dropTrail]

/-- `dropTrail` keeps a trailing character failing the predicate. -/
theorem dropTrail_append_neg {p : Char → Bool} {c : Char} (a : Line)
    (h : p c = false) : dropTrail p (a ++ [c]) = a ++ [c] := by
  induction a with
  | nil => simp [dropTrail, h]
  | cons x a' ih =>
    rw [List.cons_append, dropTrail, ih]
    match a' with
    | [] => simp
    | y :: a'' => simp

/-- `dropTrail` of a list with no character satisfying the predicate. -/
theorem dropTrail_of_forall_neg {p : Char → Bool} {a : Line}
    (h : ∀ c ∈ a, p c = false) : dropTrail p a = a := by
  induction a with
  | nil => rfl
  | cons c t ih =>
    rw [dropTrail_cons_of_neg (h c (List.mem_cons_self c t)),
      ih (fun x hx => h x (List.mem_cons_of_mem c hx))]

/-- `dropTrail` yields a prefix of its input. -/
theorem dropTrail_isPrefix (p : Char → Bool) (l : Line) : dropTrail p l <+: l := by
  induction l with
  | nil => exact List.prefix_refl []
  | cons c t ih =>
    cases hm : dropTrail p t with
    | nil =>
      cases hp : p c
      · have he : dropTrail p (c :: t) = [c] := by rw [dropTrail, hm]; simp [hp]
        rw [he]
        exact (List.cons_prefix_cons).2 ⟨rfl, List.nil_prefix⟩
      · have he : dropTrail p (c :: t) = [] := by rw [dropTrail, hm]; simp [hp]
        rw [he]
        exact List.nil_prefix
    | cons r rs =>
      have he : dropTrail p (c :: t) = c :: dropTrail p t := by
        rw [dropTrail, hm]
      rw [he]
      exact (List.cons_prefix_cons).2 ⟨rfl, ih⟩

/-- A self-stable stripped line has a whitespace-free head. -/
theorem pyStrip_self_head {c : Char} {t : Line} (h : pyStrip (c :: t) = c :: t) :
    pyIsSpace c = false := by
  by_contra hb
  have hc : pyIsSpace c = true := by
    revert hb
    cases pyIsSpace c <;> simp
  have h1 : pyStrip (c :: t) = pyStrip t := by
    unfold pyStrip
    rw [List.dropWhile_cons, if_pos hc]
  rw [h1] at h
  have h2 : (pyStrip t).length ≤ t.length := by
    have ha : (dropTrail pyIsSpace (t.dropWhile pyIsSpace)).length ≤
        (t.dropWhile pyIsSpace).length :=
      (dropTrail_isPrefix pyIsSpace (t.dropWhile pyIsSpace)).length_le
    have hb2 : (t.dropWhile pyIsSpace).length ≤ t.length :=
      (List.dropWhile_suffix pyIsSpace).length_le
    exact le_trans ha hb2
  rw [h] at h2
  simp at h2

/-- A line whose head and last character are not whitespace strips to itself. -/
theorem pyStrip_eq_self_of_ends {c d : Char} {mid : Line}
    (hc : pyIsSpace c = false) (hd : pyIsSpace d = false) :
    pyStrip (c :: (mid ++ [d])) = c :: (mid ++ [d]) := by
  unfold pyStrip
  rw [List.dropWhile_cons, if_neg (by simp [hc])]
  have he : c :: (mid ++ [d]) = (c :: mid) ++ [d] := by simp
  rw [he, dropTrail_append_neg _ hd]

/-- From a self-stable strip, recover stability of the two phases. -/
theorem pyStrip_self_parts {l : Line} (h : pyStrip l = l) :
    l.dropWhile pyIsSpace = l ∧ dropTrail pyIsSpace l = l := by
  have h1 : (l.dropWhile pyIsSpace) <:+ l := List.dropWhile_suffix pyIsSpace
  have hlen : l.length ≤ (l.dropWhile pyIsSpace).length := by
    have h2 := (dropTrail_isPrefix pyIsSpace (l.dropWhile pyIsSpace)).length_le
    unfold pyStrip at h
    rw [h] at h2
    exact h2
  have hdw : l.dropWhile pyIsSpace = l := h1.eq_of_length_le hlen
  refine ⟨hdw, ?_⟩
  unfold pyStrip at h
  rw [hdw] at h
  exact h

/-! ### Lemmas about `pyReplace` -/

/-- Fuel irrelevance for `pyReplaceAux`: any fuel at least the scan length
gives the same result. -/
theorem pyReplaceAux_congr {d e : Line} :
    ∀ {n m : Nat} {s : Line}, s.length ≤ n → s.length ≤ m →
      pyReplaceAux d e n s = pyReplaceAux d e m s := by
  intro n
  induction n with
  | zero =>
    intro m s hn _
    have hs : s = [] := List.eq_nil_of_length_eq_zero (Nat.le_zero.1 hn)
    subst hs
    cases m <;> rfl
  | succ n ih =>
    intro m s hn hm
    match s with
    | [] => cases m <;> rfl
    | c :: t =>
      match m with
      | 0 => simp at hm
      | m + 1 =>
        rw [pyReplaceAux, pyReplaceAux]
        have ht : t.length ≤ n := by simpa using hn
        have ht' : t.length ≤ m := by simpa using hm
        split
        · have hle : (List.drop (d.length - 1) t).length ≤ t.length := by
            rw [List.length_drop]
            omega
          rw [ih (le_trans hle ht) (le_trans hle ht')]
        · rw [ih ht ht']

/-- `pyReplace` on the empty line. -/
theorem pyReplace_nil (d e : Line) : pyReplace d e [] = [] := by
  unfold pyReplace
  split
  · rfl
  · rfl

/-- One-step unfolding of `pyReplace` for a non-empty pattern. -/
theorem pyReplace_cons {d e : Line} (hd : d ≠ []) (c : Char) (t : Line) :
    pyReplace d e (c :: t) =
      if d.isPrefixOf (c :: t) then
        e ++ pyReplace d e (List.drop (d.length - 1) t)
      else c :: pyReplace d e t := by
  have hne : d.isEmpty = false := by
    cases d with
    | nil => exact absurd rfl hd
    | cons a b => rfl
  unfold pyReplace
  rw [hne]
  simp only [Bool.false_eq_true, if_false]
  rw [show (c :: t).length = t.length + 1 from rfl, pyReplaceAux]
  split
  · have hle : (List.drop (d.length - 1) t).length ≤ t.length := by
      rw [List.length_drop]
      omega
    rw [pyReplaceAux_congr hle (le_refl _)]
  · rfl

/-- A pattern that is the head of neither list position is skipped. -/
theorem isPrefixOf_cons_of_head_ne {d₀ c : Char} {d' t : Line} (h : d₀ ≠ c) :
    (d₀ :: d').isPrefixOf (c :: t) = false := by
  by_contra hb
  have : (d₀ :: d') <+: (c :: t) := by
    rw [← List.isPrefixOf_iff_prefix]
    revert hb
    cases (d₀ :: d').isPrefixOf (c :: t) <;> simp
  exact h ((List.cons_prefix_cons.1 this).1)

/-- Replacing a pattern that does not occur leaves the line unchanged. -/
theorem pyReplace_of_not_infix {d e : Line} (hd : d ≠ []) :
    ∀ {s : Line}, ¬ d <:+: s → pyReplace d e s = s := by
  have main : ∀ (n : Nat) (s : Line), s.length ≤ n → ¬ d <:+: s →
      pyReplace d e s = s := by
    intro n
    induction n with
    | zero =>
      intro s hn _
      have hs : s = [] := List.eq_nil_of_length_eq_zero (Nat.le_zero.1 hn)
      subst hs
      exact pyReplace_nil d e
    | succ n ih =>
      intro s hn hinf
      match s with
      | [] => exact pyReplace_nil d e
      | c :: t =>
        rw [pyReplace_cons hd]
        have hnp : ¬ d <+: (c :: t) := fun hp => hinf hp.isInfix
        have hnpb : d.isPrefixOf (c :: t) = false := by
          by_contra hb
          exact hnp (List.isPrefixOf_iff_prefix.1 (by
            revert hb
            cases d.isPrefixOf (c :: t) <;> simp))
        rw [hnpb]
        simp only [Bool.false_eq_true, if_false]
        have hnt : ¬ d <:+: t := fun hi => hinf (List.infix_cons hi)
        rw [ih t (by simpa using hn) hnt]

  intro s
  exact main s.length s (le_refl _)

/-- Decomposition of a suffix of an appended list. -/
theorem suffix_append_cases {t a b : Line} (h : t <:+ a ++ b) :
    t <:+ b ∨ ∃ t', t = t' ++ b ∧ t' <:+ a := by
  obtain ⟨p, hp⟩ := h
  rcases List.append_eq_append_iff.1 hp with ⟨a', ha1, ha2⟩ | ⟨c', hc1, hc2⟩
  · right
    exact ⟨a', ha2, ⟨p, ha1.symm⟩⟩
  · left
    exact ⟨c', hc2.symm⟩

/-- Parsing lemma for `pyReplace`: when the replacement text is non-empty and
shares no character with the pattern, any non-empty suffix of the pattern that
prefixes the replaced text already prefixed the original text — and it is
never the whole pattern. -/
theorem pyReplace_prefix_analysis {d e : Line} (hd : d ≠ []) (he : e ≠ [])
    (hdis : ∀ c ∈ e, c ∉ d) :
    ∀ (n : Nat) (s u : Line), s.length ≤ n → u ≠ [] → u <:+ d →
      u <+: pyReplace d e s → u <+: s ∧ u ≠ d := by
  intro n
  induction n with
  | zero =>
    intro s u hn hu _ hp
    have hs : s = [] := List.eq_nil_of_length_eq_zero (Nat.le_zero.1 hn)
    subst hs
    rw [pyReplace_nil] at hp
    exact absurd (List.prefix_nil.1 hp) hu
  | succ n ih =>
    intro s u hn hu hud hp
    match s with
    | [] =>
      rw [pyReplace_nil] at hp
      exact absurd (List.prefix_nil.1 hp) hu
    | c :: t =>
      rw [pyReplace_cons hd] at hp
      by_cases hpre : d.isPrefixOf (c :: t)
      · rw [if_pos hpre] at hp
        obtain ⟨u₀, u', rfl⟩ := List.exists_cons_of_ne_nil hu
        obtain ⟨e₀, e', rfl⟩ := List.exists_cons_of_ne_nil he
        have h0 : u₀ = e₀ := (List.cons_prefix_cons.1 (by simpa using hp)).1
        have hmem : u₀ ∈ d := hud.subset (List.mem_cons_self _ _)
        have : e₀ ∉ d := hdis e₀ (List.mem_cons_self _ _)
        exact absurd (h0 ▸ hmem) this
      · rw [if_neg hpre] at hp
        obtain ⟨u₀, u', rfl⟩ := List.exists_cons_of_ne_nil hu
        obtain ⟨h0, hp'⟩ := List.cons_prefix_cons.1 hp
        subst h0
        match u' with
        | [] =>
          refine ⟨List.cons_prefix_cons.2 ⟨rfl, List.nil_prefix⟩, ?_⟩
          intro hud'
          apply hpre
          rw [← hud']
          rw [List.isPrefixOf_iff_prefix]
          exact List.cons_prefix_cons.2 ⟨rfl, List.nil_prefix⟩
        | u₁ :: u'' =>
          have hu' : (u₁ :: u'') <:+ d :=
            List.IsSuffix.trans (List.tail_suffix (u₀ :: u₁ :: u'')) hud
          have ht : t.length ≤ n := by simpa using hn
          obtain ⟨hpt, _⟩ := ih t (u₁ :: u'') ht (by simp) hu' hp'
          refine ⟨List.cons_prefix_cons.2 ⟨rfl, hpt⟩, ?_⟩
          intro hud'
          apply hpre
          rw [← hud', List.isPrefixOf_iff_prefix]
          exact List.cons_prefix_cons.2 ⟨rfl, hpt⟩

/-- No-occurrence lemma: with a non-empty replacement sharing no character
with the non-empty pattern, no suffix of the replaced text starts with the
pattern. -/
theorem pyReplace_suffix_analysis {d e : Line} (hd : d ≠ []) (he : e ≠ [])
    (hdis : ∀ c ∈ e, c ∉ d) :
    ∀ (n : Nat) (s t : Line), s.length ≤ n → t <:+ pyReplace d e s →
      ¬ d <+: t := by
  intro n
  induction n with
  | zero =>
    intro s t hn ht hp
    have hs : s = [] := List.eq_nil_of_length_eq_zero (Nat.le_zero.1 hn)
    subst hs
    rw [pyReplace_nil] at ht
    have : t = [] := List.suffix_nil.1 ht
    subst this
    exact hd (List.prefix_nil.1 hp)
  | succ n ih =>
    intro s t hn ht hp
    match s with
    | [] =>
      rw [pyReplace_nil] at ht
      have : t = [] := List.suffix_nil.1 ht
      subst this
      exact hd (List.prefix_nil.1 hp)
    | c :: s' =>
      rw [pyReplace_cons hd] at ht
      by_cases hpre : d.isPrefixOf (c :: s')
      · rw [if_pos hpre] at ht
        rcases suffix_append_cases ht with hX | ⟨t', rfl, hte⟩
        · have hlen : (List.drop (d.length - 1) s').length ≤ n := by
            rw [List.length_drop]
            have : s'.length ≤ n := by simpa using hn
            omega
          exact ih _ t hlen hX hp
        · match t' with
          | [] =>
            simp only [List.nil_append] at hp ⊢
            exact ih _ _ (by
              rw [List.length_drop]
              have : s'.length ≤ n := by simpa using hn
              omega) List.suffix_rfl hp
          | t₀ :: t'' =>
            obtain ⟨d₀, d', rfl⟩ := List.exists_cons_of_ne_nil hd
            have h0 : d₀ = t₀ := (List.cons_prefix_cons.1 (by simpa using hp)).1
            have htm : t₀ ∈ e := hte.subset (List.mem_cons_self _ _)
            have : t₀ ∉ (d₀ :: d') := hdis t₀ htm
            exact this (h0 ▸ List.mem_cons_self _ _)
      · rw [if_neg hpre] at ht
        have hs' : s'.length ≤ n := by simpa using hn
        rcases List.suffix_cons_iff.1 ht with rfl | ht'
        · obtain ⟨d₀, d', rfl⟩ := List.exists_cons_of_ne_nil hd
          obtain ⟨h0, hp'⟩ := List.cons_prefix_cons.1 hp
          subst h0
          match d' with
          | [] =>
            apply hpre
            rw [List.isPrefixOf_iff_prefix]
            exact List.cons_prefix_cons.2 ⟨rfl, List.nil_prefix⟩
          | d₁ :: d'' =>
            have hsufd : (d₁ :: d'') <:+ (d₀ :: d₁ :: d'') :=
              List.tail_suffix (d₀ :: d₁ :: d'')
            obtain ⟨hpt, _⟩ := pyReplace_prefix_analysis hd he hdis n s'
              (d₁ :: d'') hs' (by simp) hsufd hp'
            apply hpre
            rw [List.isPrefixOf_iff_prefix]
            exact List.cons_prefix_cons.2 ⟨rfl, hpt⟩
        · exact ih _ _ hs' ht' hp

/-- With a non-empty replacement sharing no character with the non-empty
pattern, the pattern does not occur in the replaced text. -/
theorem pyReplace_not_infix {d e : Line} (hd : d ≠ []) (he : e ≠ [])
    (hdis : ∀ c ∈ e, c ∉ d) (s : Line) : ¬ d <:+: pyReplace d e s := by
  intro hinf
  obtain ⟨t, htp, hts⟩ := List.infix_iff_prefix_suffix.1 hinf
  exact pyReplace_suffix_analysis hd he hdis s.length s t (le_refl _) hts htp

/-! ### Routing lemmas for the scanning step -/

/-- `containsSub` in the negative. -/
theorem containsSub_eq_false {s pat : Line} :
    containsSub s pat = false ↔ ¬ pat <:+: s := by
  rw [← containsSub_iff]
  cases containsSub s pat <;> simp

/-- A line whose last character is not `:` is not a declaration start. -/
theorem classStartB_false_of_last {l : Line} {c : Char}
    (h : l.getLast? = some c) (hc : c ≠ ':') : classStartB l = false := by
  unfold classStartB
  have hs : (strL "Model):").isSuffixOf l = false := by
    by_contra hb
    have hsuf : strL "Model):" <:+ l := by
      rw [← List.isSuffixOf_iff_suffix]
      revert hb
      cases (strL "Model):").isSuffixOf l <;> simp
    obtain ⟨p, hp⟩ := hsuf
    have : l.getLast? = some ':' := by
      rw [← hp, List.getLast?_append]
      rfl
    rw [h] at this
    exact hc (Option.some.inj this)
  rw [hs, Bool.and_false]

/-- Without the metadata marker in the previous line, the explicit-table-name
test fails. -/
theorem dbTableCondB_false_of_prev {l prevL : Line}
    (h : containsSub prevL (strL "class Meta:") = false) :
    dbTableCondB l prevL = false := by
  unfold dbTableCondB
  rw [h, Bool.and_false]

/-- The scanning step routes a suitable line to the field translator. -/
theorem step_routes_to_field (s : ConvState) (l : Line)
    (hab : s.aborted = false) (hin : s.in_model_def = true)
    (hdef : (strL "def ").isPrefixOf l = false)
    (hstrip : pyStrip l = l)
    (hclass : classStartB l = false)
    (hdb : dbTableCondB l s.prev_line = false)
    (hq : (strL "\"\"\"").isPrefixOf l = false)
    (hh : (strL "#").isPrefixOf l = false)
    (heq : containsSub l (strL "=") = true)
    (hmd : containsSub l (strL "models.") = true) :
    step s l = { (processField s l) with
                   prev_line := l,
                   lineno := (processField s l).lineno + 1 } := by
  simp [step, hab, hin, hdef, hstrip, hclass, hdb, hq, hh, heq, hmd]

/-- Stripping a line that ends in one extra space. -/
theorem pyStrip_append_space {name : Line} (h : pyStrip name = name) :
    pyStrip (name ++ [' ']) = name := by
  obtain ⟨hdw, hdt⟩ := pyStrip_self_parts h
  match name with
  | [] => rfl
  | n₀ :: n' =>
    have hn₀ : pyIsSpace n₀ = false := pyStrip_self_head h
    unfold pyStrip
    rw [List.cons_append, List.dropWhile_cons, if_neg (by simp [hn₀])]
    have he : n₀ :: (n' ++ [' ']) = (n₀ :: n') ++ [' '] := by simp
    rw [he, dropTrail_append_pos _ (by rfl), hdt]

/-- Stripping a line with one extra leading space. -/
theorem pyStrip_cons_space {l : Line} : pyStrip (' ' :: l) = pyStrip l := by
  unfold pyStrip
  rw [List.dropWhile_cons, if_pos (by rfl)]

/-- Splitting a field-assignment line built from a clean name and a clean
right-hand side. -/
theorem processField_split (s : ConvState) (name rhs0 : Line)
    (h1 : '=' ∉ name) (h2 : '=' ∉ rhs0)
    (hnm : pyStrip name = name) (hr : pyStrip rhs0 = rhs0) :
    processField s (name ++ (strL " = " ++ rhs0)) =
      fieldCore s (name ++ (strL " = " ++ rhs0)) name rhs0 := by
  have e1 : name ++ (strL " = " ++ rhs0) = (name ++ [' ']) ++ '=' :: (' ' :: rhs0) := by
    have hsl : strL " = " = [' ', '=', ' '] := rfl
    rw [hsl]
    simp
  have hno : '=' ∉ name ++ [' '] := by
    intro hmem
    rcases List.mem_append.1 hmem with hma | hmb
    · exact h1 hma
    · simp at hmb
  have hno2 : '=' ∉ ' ' :: rhs0 := by
    intro hmem
    rcases List.mem_cons.1 hmem with hma | hmb
    · simp at hma
    · exact h2 hmb
  have hsplit : pySplit1 '=' (name ++ (strL " = " ++ rhs0)) =
      [name ++ [' '], ' ' :: rhs0] := by
    rw [e1, pySplit1_append hno, pySplit1_of_not_mem hno2]
  unfold processField
  rw [hsplit]
  show fieldCore s (name ++ (strL " = " ++ rhs0))
      (pyStrip (idx [name ++ [' '], ' ' :: rhs0] 0))
      (pyStrip (idx [name ++ [' '], ' ' :: rhs0] 1)) =
    fieldCore s (name ++ (strL " = " ++ rhs0)) name rhs0
  have i0 : idx [name ++ [' '], ' ' :: rhs0] 0 = name ++ [' '] := rfl
  have i1 : idx [name ++ [' '], ' ' :: rhs0] 1 = ' ' :: rhs0 := rfl
  rw [i0, i1, pyStrip_append_space hnm, pyStrip_cons_space, hr]

/-- `dropTrail` is the identity when the last element fails the predicate. -/
theorem dropTrail_eq_self_of_last {p : Char → Bool} :
    ∀ {l : Line}, (∀ c, l.getLast? = some c → p c = false) → dropTrail p l = l := by
  intro l
  induction l with
  | nil => intro _; rfl
  | cons c t ih =>
    intro h
    match t with
    | [] =>
      have hc := h c rfl
      simp [dropTrail, hc]
    | b :: t' =>
      have ht : dropTrail p (b :: t') = b :: t' := by
        apply ih
        intro x hx
        exact h x (by rw [List.getLast?_cons_cons]; exact hx)
      rw [dropTrail, ht]

/-- A line with whitespace-free head and last character strips to itself. -/
theorem pyStrip_eq_self_of_head_last {l : Line}
    (h1 : ∀ c, l.head? = some c → pyIsSpace c = false)
    (h2 : ∀ c, l.getLast? = some c → pyIsSpace c = false) :
    pyStrip l = l := by
  match l with
  | [] => rfl
  | c :: t =>
    have hc : pyIsSpace c = false := h1 c rfl
    unfold pyStrip
    rw [List.dropWhile_cons, if_neg (by simp [hc])]
    exact dropTrail_eq_self_of_last h2

/-- Positive `containsSub` from a single-character membership. -/
theorem containsSub_of_mem {s : Line} {c : Char} (h : c ∈ s) :
    containsSub s [c] = true :=
  containsSub_iff.2 (singleton_infix_iff.2 h)

/-- Splitting a namespaced right-hand side at the dot. -/
theorem dotSplit {tail : Line} (h : '.' ∉ tail) :
    pySplit1 '.' (strL "models." ++ tail) = [strL "models", tail] := by
  have e : strL "models." ++ tail = strL "models" ++ '.' :: tail := rfl
  rw [e, pySplit1_append (by decide), pySplit1_of_not_mem h]

/-- The scanning step on a clean field-assignment line reaches the field
translator with the field name and right-hand side correctly split out. -/
theorem step_template (s : ConvState) (name rhs0 : Line)
    (hnm : NameOk name)
    (hab : s.aborted = false) (hin : s.in_model_def = true)
    (hprev : containsSub s.prev_line (strL "class Meta:") = false)
    (hdef : (strL "def ").isPrefixOf (name ++ (strL " = " ++ rhs0)) = false)
    (hm : ∃ X, rhs0 = strL "models." ++ X)
    (hr : pyStrip rhs0 = rhs0) (h2 : '=' ∉ rhs0)
    (hlast : ∀ c, (name ++ (strL " = " ++ rhs0)).getLast? = some c →
      c ≠ ':' ∧ pyIsSpace c = false) :
    step s (name ++ (strL " = " ++ rhs0)) =
      { (fieldCore s (name ++ (strL " = " ++ rhs0)) name rhs0) with
          prev_line := name ++ (strL " = " ++ rhs0),
          lineno := (fieldCore s (name ++ (strL " = " ++ rhs0)) name rhs0).lineno + 1 } := by
  obtain ⟨hne, hst, hneq, hndot, hq0, hh0, _, _, _, _⟩ := hnm
  obtain ⟨n₀, n', rfl⟩ := List.exists_cons_of_ne_nil hne
  have hn₀ : pyIsSpace n₀ = false := pyStrip_self_head hst
  have hlcons : (n₀ :: n') ++ (strL " = " ++ rhs0) =
      n₀ :: (n' ++ (strL " = " ++ rhs0)) := rfl
  obtain ⟨cl, hcl⟩ : ∃ cl, ((n₀ :: n') ++ (strL " = " ++ rhs0)).getLast? = some cl := by
    cases hx : ((n₀ :: n') ++ (strL " = " ++ rhs0)).getLast? with
    | none =>
      have hnil := List.getLast?_eq_none_iff.1 hx
      simp at hnil
    | some c => exact ⟨c, rfl⟩
  obtain ⟨hcl1, hcl2⟩ := hlast cl hcl
  have hstrip : pyStrip ((n₀ :: n') ++ (strL " = " ++ rhs0)) =
      (n₀ :: n') ++ (strL " = " ++ rhs0) := by
    apply pyStrip_eq_self_of_head_last
    · intro c hc
      rw [hlcons] at hc
      simp at hc
      rw [← hc]
      exact hn₀
    · intro c hc
      rw [hcl] at hc
      rw [← Option.some.inj hc]
      exact hcl2
  have hclass : classStartB ((n₀ :: n') ++ (strL " = " ++ rhs0)) = false :=
    classStartB_false_of_last hcl hcl1
  have hdb : dbTableCondB ((n₀ :: n') ++ (strL " = " ++ rhs0)) s.prev_line = false :=
    dbTableCondB_false_of_prev hprev
  have hq : (strL "\"\"\"").isPrefixOf ((n₀ :: n') ++ (strL " = " ++ rhs0)) = false := by
    rw [hlcons]
    apply isPrefixOf_cons_of_head_ne
    intro hx
    exact hq0 (by simp [← hx])
  have hh : (strL "#").isPrefixOf ((n₀ :: n') ++ (strL " = " ++ rhs0)) = false := by
    rw [hlcons]
    apply isPrefixOf_cons_of_head_ne
    intro hx
    exact hh0 (by simp [← hx])
  have heq : containsSub ((n₀ :: n') ++ (strL " = " ++ rhs0)) (strL "=") = true := by
    have : strL "=" = ['='] := rfl
    rw [this]
    apply containsSub_of_mem
    simp [strL]
  have hmd : containsSub ((n₀ :: n') ++ (strL " = " ++ rhs0)) (strL "models.") = true := by
    obtain ⟨X, rfl⟩ := hm
    apply containsSub_iff.2
    exact ⟨(n₀ :: n') ++ strL " = ", X, by simp⟩
  rw [step_routes_to_field s _ hab hin hdef hstrip hclass hdb hq hh heq hmd,
    processField_split s _ rhs0 hneq h2 hst hr]

/-- The primary-key shortcut is not taken for a field name that is not one of
the identifier aliases. -/
theorem pkCond_false {name l : Line}
    (h1 : name ≠ strL "id") (h2 : name ≠ strL "pk")
    (h3 : name ≠ strL "ID") (h4 : name ≠ strL "PK") :
    ((name = strL "id" || name = strL "pk" || name = strL "ID" ||
      name = strL "PK") && containsSub l (strL "primary_key")) = false := by
  simp [h1, h2, h3, h4]

/-- Stripping the closing parenthesis from a clean related name. -/
theorem stripParen {rel : Line} (hne : rel ≠ []) (hpar : ')' ∉ rel) :
    pyStripChar ')' (rel ++ [')']) = rel := by
  obtain ⟨r₀, r', rfl⟩ := List.exists_cons_of_ne_nil hne
  have hr₀ : r₀ ≠ ')' := fun hx => hpar (hx ▸ List.mem_cons_self _ _)
  unfold pyStripChar
  rw [List.cons_append, List.dropWhile_cons, if_neg (by simp [hr₀])]
  have e : r₀ :: (r' ++ [')']) = (r₀ :: r') ++ [')'] := rfl
  rw [e, dropTrail_append_pos _ (by simp)]
  apply dropTrail_of_forall_neg
  intro x hx
  simp only [decide_eq_false_iff_not]
  exact fun he => hpar (he ▸ hx)

/-- A clean related name followed by a closing parenthesis strips to itself. -/
theorem relParenStrip {rel : Line} (hne : rel ≠ []) (hst : pyStrip rel = rel) :
    pyStrip (rel ++ [')']) = rel ++ [')'] := by
  obtain ⟨r₀, r', rfl⟩ := List.exists_cons_of_ne_nil hne
  have hr₀ : pyIsSpace r₀ = false := pyStrip_self_head hst
  have e : (r₀ :: r') ++ [')'] = r₀ :: (r' ++ [')']) := rfl
  rw [e]
  exact pyStrip_eq_self_of_ends hr₀ (by decide)

/-- Field translation of a scalar constructor found in the type table. -/
theorem fieldCore_scalar (s : ConvState) (l name ctor gty : Line)
    (h1 : name ≠ strL "id") (h2 : name ≠ strL "pk")
    (h3 : name ≠ strL "ID") (h4 : name ≠ strL "PK")
    (hcd : '.' ∉ ctor) (hcp : '(' ∉ ctor) (hcs : pyStrip ctor = ctor)
    (hlk : List.lookup ctor typeMap = some gty) :
    fieldCore s l name (strL "models." ++ (ctor ++ strL "()")) =
      { s with current_model := s.current_model ++
          [strL "\t" ++ pyCapitalize name ++ strL "\t\t" ++ gty ++
            strL "\t`gorm:\"column:" ++ name ++ strL "\"`"] } := by
  have hnd : '.' ∉ ctor ++ strL "()" := by
    intro hx
    rcases List.mem_append.1 hx with hx | hx
    · exact hcd hx
    · simp [strL] at hx
  have hdp : pySplit1 '.' (strL "models." ++ (ctor ++ strL "()")) =
      [strL "models", ctor ++ strL "()"] := dotSplit hnd
  have hft : pySplit1 '(' (ctor ++ strL "()") = [ctor, strL ")"] := by
    have e : ctor ++ strL "()" = ctor ++ '(' :: strL ")" := rfl
    rw [e, pySplit1_append hcp, pySplit1_of_not_mem (by decide)]
  simp [fieldCore, hdp, hft, idx, hcs, hlk, pkCond_false h1 h2 h3 h4]

/-- Field translation of a `ForeignKey` with a clean related name. -/
theorem fieldCore_fk (s : ConvState) (l name rel : Line)
    (h1 : name ≠ strL "id") (h2 : name ≠ strL "pk")
    (h3 : name ≠ strL "ID") (h4 : name ≠ strL "PK")
    (hrel : RelOk rel) :
    fieldCore s l name
        (strL "models." ++ (strL "ForeignKey" ++ ('(' :: (rel ++ strL ")")))) =
      { s with current_model := s.current_model ++
          [ strL "\t" ++ pyCapitalize name ++ strL "ID\t\tint64\t" ++
              strL "`gorm:\"foreignKey:" ++ name ++
              strL "_id;association_foreignkey:id\"`",
            strL "\t" ++ pyCapitalize name ++ strL "\t\t" ++ rel ] } := by
  obtain ⟨hne, hst, _, hndot, hnpar, hnrpar, hncomma⟩ := hrel
  have hnd : '.' ∉ strL "ForeignKey" ++ ('(' :: (rel ++ strL ")")) := by
    intro hx
    rcases List.mem_append.1 hx with hx | hx
    · simp [strL] at hx
    · rcases List.mem_cons.1 hx with hx | hx
      · simp at hx
      · rcases List.mem_append.1 hx with hx | hx
        · exact hndot hx
        · simp [strL] at hx
  have hdp : pySplit1 '.'
      (strL "models." ++ (strL "ForeignKey" ++ ('(' :: (rel ++ strL ")")))) =
      [strL "models", strL "ForeignKey" ++ ('(' :: (rel ++ strL ")"))] :=
    dotSplit hnd
  have hnp2 : '(' ∉ rel ++ strL ")" := by
    intro hx
    rcases List.mem_append.1 hx with hx | hx
    · exact hnpar hx
    · simp [strL] at hx
  have hft : pySplit1 '(' (strL "ForeignKey" ++ ('(' :: (rel ++ strL ")"))) =
      [strL "ForeignKey", rel ++ strL ")"] := by
    rw [pySplit1_append (by decide), pySplit1_of_not_mem hnp2]
  have hts : pyStrip (strL "ForeignKey" ++ ('(' :: (rel ++ strL ")"))) =
      strL "ForeignKey" ++ ('(' :: (rel ++ strL ")")) := by
    have e : strL "ForeignKey" ++ ('(' :: (rel ++ strL ")")) =
        'F' :: ((strL "oreignKey" ++ ('(' :: rel)) ++ [')']) := by
      simp [strL]
    rw [e]
    exact pyStrip_eq_self_of_ends (by decide) (by decide)
  have hrelp : pyStrip (rel ++ strL ")") = rel ++ strL ")" := relParenStrip hne hst
  have hcomma : pySplit1 ',' (rel ++ strL ")") = [rel ++ strL ")"] := by
    apply pySplit1_of_not_mem
    intro hx
    rcases List.mem_append.1 hx with hx | hx
    · exact hncomma hx
    · simp [strL] at hx
  have hstrip : pyStripChar ')' (rel ++ strL ")") = rel := stripParen hne hnrpar
  have hfts : pyStrip (strL "ForeignKey") = strL "ForeignKey" := by decide
  have hlk : List.lookup (strL "ForeignKey") typeMap = none := by decide
  simp [fieldCore, hdp, hft, hts, hrelp, hcomma, hstrip, idx, hfts, hlk,
    pkCond_false h1 h2 h3 h4]

/-- Field translation of a `OneToOneField` with a clean related name: same
paired emission as `ForeignKey`, with the shorter tag. -/
theorem fieldCore_o2o (s : ConvState) (l name rel : Line)
    (h1 : name ≠ strL "id") (h2 : name ≠ strL "pk")
    (h3 : name ≠ strL "ID") (h4 : name ≠ strL "PK")
    (hrel : RelOk rel) :
    fieldCore s l name
        (strL "models." ++ (strL "OneToOneField" ++ ('(' :: (rel ++ strL ")")))) =
      { s with current_model := s.current_model ++
          [ strL "\t" ++ pyCapitalize name ++ strL "ID\t\tint64\t" ++
              strL "`gorm:\"foreignKey:" ++ name ++ strL "_id\"`",
            strL "\t" ++ pyCapitalize name ++ strL "\t\t" ++ rel ] } := by
  obtain ⟨hne, hst, _, hndot, hnpar, hnrpar, hncomma⟩ := hrel
  have hnd : '.' ∉ strL "OneToOneField" ++ ('(' :: (rel ++ strL ")")) := by
    intro hx
    rcases List.mem_append.1 hx with hx | hx
    · simp [strL] at hx
    · rcases List.mem_cons.1 hx with hx | hx
      · simp at hx
      · rcases List.mem_append.1 hx with hx | hx
        · exact hndot hx
        · simp [strL] at hx
  have hdp : pySplit1 '.'
      (strL "models." ++ (strL "OneToOneField" ++ ('(' :: (rel ++ strL ")")))) =
      [strL "models", strL "OneToOneField" ++ ('(' :: (rel ++ strL ")"))] :=
    dotSplit hnd
  have hnp2 : '(' ∉ rel ++ strL ")" := by
    intro hx
    rcases List.mem_append.1 hx with hx | hx
    · exact hnpar hx
    · simp [strL] at hx
  have hft : pySplit1 '(' (strL "OneToOneField" ++ ('(' :: (rel ++ strL ")"))) =
      [strL "OneToOneField", rel ++ strL ")"] := by
    rw [pySplit1_append (by decide), pySplit1_of_not_mem hnp2]
  have hts : pyStrip (strL "OneToOneField" ++ ('(' :: (rel ++ strL ")"))) =
      strL "OneToOneField" ++ ('(' :: (rel ++ strL ")")) := by
    have e : strL "OneToOneField" ++ ('(' :: (rel ++ strL ")")) =
        'O' :: ((strL "neToOneField" ++ ('(' :: rel)) ++ [')']) := by
      simp [strL]
    rw [e]
    exact pyStrip_eq_self_of_ends (by decide) (by decide)
  have hrelp : pyStrip (rel ++ strL ")") = rel ++ strL ")" := relParenStrip hne hst
  have hcomma : pySplit1 ',' (rel ++ strL ")") = [rel ++ strL ")"] := by
    apply pySplit1_of_not_mem
    intro hx
    rcases List.mem_append.1 hx with hx | hx
    · exact hncomma hx
    · simp [strL] at hx
  have hstrip : pyStripChar ')' (rel ++ strL ")") = rel := stripParen hne hnrpar
  have hfts : pyStrip (strL "OneToOneField") = strL "OneToOneField" := by decide
  have hlk : List.lookup (strL "OneToOneField") typeMap = none := by decide
  have hne1 : strL "OneToOneField" ≠ strL "ForeignKey" := by decide
  have hne2 : strL "OneToOneField" ≠ strL "ManyToManyField" := by decide
  simp [fieldCore, hdp, hft, hts, hrelp, hcomma, hstrip, idx, hfts, hlk,
    hne1, hne2, pkCond_false h1 h2 h3 h4]

/-- Field translation of a `ForeignKey` whose constructor call has no
parenthesised arguments: the related name cannot be extracted, the sentinel
placeholder is substituted, and no diagnostic is recorded. -/
theorem fieldCore_fk_noparen (s : ConvState) (l name : Line)
    (h1 : name ≠ strL "id") (h2 : name ≠ strL "pk")
    (h3 : name ≠ strL "ID") (h4 : name ≠ strL "PK") :
    fieldCore s l name (strL "models.ForeignKey") =
      { s with current_model := s.current_model ++
          [ strL "\t" ++ pyCapitalize name ++ strL "ID\t\tint64\t" ++
              strL "`gorm:\"foreignKey:" ++ name ++
              strL "_id;association_foreignkey:id\"`",
            strL "\t" ++ pyCapitalize name ++ strL "\t\t" ++ strL "########" ] } := by
  have hdp : pySplit1 '.' (strL "models.ForeignKey") =
      [strL "models", strL "ForeignKey"] := by decide
  have hft : pySplit1 '(' (strL "ForeignKey") = [strL "ForeignKey"] := by decide
  have hts : pyStrip (strL "ForeignKey") = strL "ForeignKey" := by decide
  have hlk : List.lookup (strL "ForeignKey") typeMap = none := by decide
  simp [fieldCore, hdp, hft, hts, hlk, idx, pkCond_false h1 h2 h3 h4]

/-! ### Claims -/

/-- C3: the claim states that an input with no recognized declaration start
produces exactly the enabled scaffolding blocks with no close markers.  The
code violates this: `last_model_closed` starts out false, so the trailing
close fires on the empty buffer and a spurious close marker and blank line
are appended after the scaffolding (with all toggles off, the whole output
is just the stray close marker).  This theorem evaluates the embedded code
at the failing inputs. -/
theorem c3_code_eval :
    convertLines [] true true true =
      some { lines := importsLines ++ userModelLines ++ groupModelLines ++
               [strL "\x7d", []],
             errors := [] } ∧
    convertLines [strL "import django"] false false false =
      some { lines := [strL "\x7d", []], errors := [] } := by decide

/-- C2 (counterexample): a declaration with no explicit table identifier is
closed with NO `TableName` accessor at all — the accessor is only emitted in
the explicit-identifier branch, contrary to the claim. -/
theorem c2_counterexample :
    convertLines c2input false false false =
      some { lines := [ strL "type Foo struct \x7b",
                        strL "\tName\t\tstring\t`gorm:\"column:name\"`",
                        strL "\x7d", [] ],
             errors := [] } ∧
    ((convertLines c2input false false false).getD ⟨[], []⟩).lines.all
      (fun ln => !(containsSub ln (strL "TableName"))) = true := by decide

/-- C2 (amended): for a declaration with no explicit table identifier,
closing (here triggered by an unindented procedure-start line) appends the
buffered lines unchanged followed by the closing brace and a blank line, and
appends no type-accessor; no diagnostic is recorded. -/
theorem c2_amended (s : ConvState) (raw : Line)
    (hab : s.aborted = false) (hin : s.in_model_def = true)
    (hcu : s.custom_table_name = false)
    (hdef : (strL "def ").isPrefixOf raw = true) :
    (step s raw).out_lines = s.out_lines ++ (s.current_model ++ [strL "\x7d", []]) ∧
    (step s raw).in_model_def = false ∧
    (step s raw).errors = s.errors := by
  have hcb : closeBlock s = s.current_model ++ [strL "\x7d", []] := by
    unfold closeBlock
    rw [hcu]
    simp
  obtain ⟨r, hr⟩ := List.isPrefixOf_iff_prefix.1 hdef
  have hraw : raw = 'd' :: (strL "ef " ++ r) := by rw [← hr]; rfl
  have hps : pyStrip raw = 'd' :: dropTrail pyIsSpace (strL "ef " ++ r) := by
    rw [hraw]
    unfold pyStrip
    rw [List.dropWhile_cons, if_neg (by decide)]
    exact dropTrail_cons_of_neg (by decide)
  have hclass : classStartB (pyStrip raw) = false := by
    unfold classStartB
    rw [hps]
    have ecl : strL "class" = 'c' :: strL "lass" := rfl
    rw [ecl, isPrefixOf_cons_of_head_ne (by decide), Bool.false_and]
  simp [step, hab, hin, hdef, hclass, hcb]

/-- C4 (counterexample): a relationship constructor whose related name cannot
be extracted gets the sentinel placeholder type, but NO Diagnostic is
recorded — the diagnostics list stays empty, contrary to the claim. -/
theorem c4_counterexample :
    convertLines c4input false false false =
      some { lines :=
               [ strL "type Foo struct \x7b",
                 strL "\tUserID\t\tint64\t`gorm:\"foreignKey:user_id;association_foreignkey:id\"`",
                 strL "\tUser\t\t########",
                 strL "\x7d", [] ],
             errors := [] } := by decide

/-- C4 (amended): whenever the related-declaration name cannot be extracted
from a relationship constructor call, the sentinel placeholder type is
substituted and the scan continues, but no Diagnostic is appended — the
errors list and every other state component except the declaration buffer,
the previous-line tracker and the line counter are unchanged. -/
theorem c4_amended (s : ConvState) (name : Line)
    (hnm : NameOk name)
    (hab : s.aborted = false) (hin : s.in_model_def = true)
    (hprev : containsSub s.prev_line (strL "class Meta:") = false)
    (hdef : (strL "def ").isPrefixOf
      (name ++ (strL " = " ++ strL "models.ForeignKey")) = false) :
    step s (name ++ (strL " = " ++ strL "models.ForeignKey")) =
      { s with
          current_model := s.current_model ++
            [ strL "\t" ++ pyCapitalize name ++ strL "ID\t\tint64\t" ++
                strL "`gorm:\"foreignKey:" ++ name ++
                strL "_id;association_foreignkey:id\"`",
              strL "\t" ++ pyCapitalize name ++ strL "\t\t" ++ strL "########" ],
          prev_line := name ++ (strL " = " ++ strL "models.ForeignKey"),
          lineno := s.lineno + 1 } := by
  have hi1 := hnm.2.2.2.2.2.2.1
  have hi2 := hnm.2.2.2.2.2.2.2.1
  have hi3 := hnm.2.2.2.2.2.2.2.2.1
  have hi4 := hnm.2.2.2.2.2.2.2.2.2
  have hlast : ∀ c,
      (name ++ (strL " = " ++ strL "models.ForeignKey")).getLast? = some c →
      c ≠ ':' ∧ pyIsSpace c = false := by
    intro c hc
    have : c = 'y' := by
      rw [List.getLast?_append] at hc
      have he : (strL " = " ++ strL "models.ForeignKey").getLast? = some 'y' := by decide
      rw [he] at hc
      exact (Option.some.inj hc).symm
    subst this
    exact ⟨by decide, by decide⟩
  rw [step_template s name (strL "models.ForeignKey") hnm hab hin hprev hdef
      ⟨strL "ForeignKey", rfl⟩ (by decide) (by decide) hlast,
    fieldCore_fk_noparen s _ name hi1 hi2 hi3 hi4]

/-- C4 (witness): the amended behaviour at a concrete open state and field
name. -/
theorem c4_amended_witness :
    step c2wstate (strL "user" ++ (strL " = " ++ strL "models.ForeignKey")) =
      { c2wstate with
          current_model := c2wstate.current_model ++
            [ strL "\t" ++ pyCapitalize (strL "user") ++ strL "ID\t\tint64\t" ++
                strL "`gorm:\"foreignKey:" ++ strL "user" ++
                strL "_id;association_foreignkey:id\"`",
              strL "\t" ++ pyCapitalize (strL "user") ++ strL "\t\t" ++
                strL "########" ],
          prev_line := strL "user" ++ (strL " = " ++ strL "models.ForeignKey"),
          lineno := c2wstate.lineno + 1 } :=
  c4_amended c2wstate (strL "user") (by decide) (by decide) (by decide)
    (by decide) (by decide)

/-- C2 (witness): the amended close-without-accessor behaviour at a concrete
open state. -/
theorem c2_amended_witness :
    (step c2wstate (strL "def save(self):")).out_lines =
      c2wstate.out_lines ++ (c2wstate.current_model ++ [strL "\x7d", []]) ∧
    (step c2wstate (strL "def save(self):")).in_model_def = false ∧
    (step c2wstate (strL "def save(self):")).errors = c2wstate.errors :=
  c2_amended c2wstate (strL "def save(self):") (by decide) (by decide)
    (by decide) (by decide)

/-- C5 (counterexample): for the mixed-case field name `myField` the emitted
column tag is `column:myField` — the source name verbatim — and not the
lower-case `column:myfield` the claim demands. -/
theorem c5_counterexample :
    (step c2wstate (strL "myField = models.CharField(max_length=10)")).current_model =
      c2wstate.current_model ++
        [strL "\tMyfield\t\tstring\t`gorm:\"column:myField\"`"] ∧
    containsSub (strL "\tMyfield\t\tstring\t`gorm:\"column:myField\"`")
      (strL "column:myfield") = false ∧
    containsSub (strL "\tMyfield\t\tstring\t`gorm:\"column:myField\"`")
      (strL "column:myField") = true := by decide

/-- C5 (amended): a field line with a string-producing constructor emits
exactly one field line whose type is `string`, whose field name is the
capitalized source name (first character upper-cased, the rest lower-cased),
and whose column tag carries the source field name verbatim (this equals the
lower-case form only when the source name is already lower-case). -/
theorem c5_amended (s : ConvState) (name ctor : Line)
    (hnm : NameOk name)
    (hct : ctor = strL "CharField" ∨ ctor = strL "TextField")
    (hab : s.aborted = false) (hin : s.in_model_def = true)
    (hprev : containsSub s.prev_line (strL "class Meta:") = false)
    (hdef : (strL "def ").isPrefixOf
      (name ++ (strL " = " ++ (strL "models." ++ (ctor ++ strL "()")))) = false) :
    step s (name ++ (strL " = " ++ (strL "models." ++ (ctor ++ strL "()")))) =
      { s with
          current_model := s.current_model ++
            [strL "\t" ++ pyCapitalize name ++ strL "\t\t" ++ strL "string" ++
              strL "\t`gorm:\"column:" ++ name ++ strL "\"`"],
          prev_line := name ++ (strL " = " ++ (strL "models." ++ (ctor ++ strL "()"))),
          lineno := s.lineno + 1 } := by
  have hi1 := hnm.2.2.2.2.2.2.1
  have hi2 := hnm.2.2.2.2.2.2.2.1
  have hi3 := hnm.2.2.2.2.2.2.2.2.1
  have hi4 := hnm.2.2.2.2.2.2.2.2.2
  rcases hct with rfl | rfl
  · have hlast : ∀ c,
        (name ++ (strL " = " ++ (strL "models." ++ (strL "CharField" ++ strL "()")))).getLast? =
          some c → c ≠ ':' ∧ pyIsSpace c = false := by
      intro c hc
      have hy : c = ')' := by
        rw [List.getLast?_append] at hc
        have he : (strL " = " ++ (strL "models." ++ (strL "CharField" ++ strL "()"))).getLast? =
            some ')' := by decide
        rw [he] at hc
        exact (Option.some.inj hc).symm
      subst hy
      exact ⟨by decide, by decide⟩
    rw [step_template s name (strL "models." ++ (strL "CharField" ++ strL "()"))
        hnm hab hin hprev hdef ⟨strL "CharField" ++ strL "()", rfl⟩
        (by decide) (by decide) hlast,
      fieldCore_scalar s _ name (strL "CharField") (strL "string") hi1 hi2 hi3 hi4
        (by decide) (by decide) (by decide) (by decide)]
  · have hlast : ∀ c,
        (name ++ (strL " = " ++ (strL "models." ++ (strL "TextField" ++ strL "()")))).getLast? =
          some c → c ≠ ':' ∧ pyIsSpace c = false := by
      intro c hc
      have hy : c = ')' := by
        rw [List.getLast?_append] at hc
        have he : (strL " = " ++ (strL "models." ++ (strL "TextField" ++ strL "()"))).getLast? =
            some ')' := by decide
        rw [he] at hc
        exact (Option.some.inj hc).symm
      subst hy
      exact ⟨by decide, by decide⟩
    rw [step_template s name (strL "models." ++ (strL "TextField" ++ strL "()"))
        hnm hab hin hprev hdef ⟨strL "TextField" ++ strL "()", rfl⟩
        (by decide) (by decide) hlast,
      fieldCore_scalar s _ name (strL "TextField") (strL "string") hi1 hi2 hi3 hi4
        (by decide) (by decide) (by decide) (by decide)]

/-- C5 (witness): the amended scalar translation at a concrete open state
with a mixed-case field name. -/
theorem c5_amended_witness :
    step c2wstate (strL "myField" ++ (strL " = " ++
        (strL "models." ++ (strL "CharField" ++ strL "()")))) =
      { c2wstate with
          current_model := c2wstate.current_model ++
            [strL "\t" ++ pyCapitalize (strL "myField") ++ strL "\t\t" ++
              strL "string" ++ strL "\t`gorm:\"column:" ++ strL "myField" ++
              strL "\"`"],
          prev_line := strL "myField" ++ (strL " = " ++
            (strL "models." ++ (strL "CharField" ++ strL "()"))),
          lineno := c2wstate.lineno + 1 } :=
  c5_amended c2wstate (strL "myField") (strL "CharField") (by decide)
    (Or.inl rfl) (by decide) (by decide) (by decide) (by decide)

/-- C7: a `ForeignKey` field line naming a related declaration produces
exactly two field entries, in order: an `int64` identifier field named
`<Field>ID` tagged `foreignKey:<field>_id;association_foreignkey:id`, then
an association field named `<Field>` whose type is the related declaration
name; a `OneToOneField` line produces the same pair except its tag is
`foreignKey:<field>_id` without the association-foreign-key component. -/
theorem c7_relationship_pair (s : ConvState) (name rel : Line)
    (hnm : NameOk name) (hrel : RelOk rel)
    (hab : s.aborted = false) (hin : s.in_model_def = true)
    (hprev : containsSub s.prev_line (strL "class Meta:") = false)
    (hdef1 : (strL "def ").isPrefixOf
      (name ++ (strL " = " ++ (strL "models." ++
        (strL "ForeignKey" ++ ('(' :: (rel ++ strL ")")))))) = false)
    (hdef2 : (strL "def ").isPrefixOf
      (name ++ (strL " = " ++ (strL "models." ++
        (strL "OneToOneField" ++ ('(' :: (rel ++ strL ")")))))) = false) :
    step s (name ++ (strL " = " ++ (strL "models." ++
        (strL "ForeignKey" ++ ('(' :: (rel ++ strL ")")))))) =
      { s with
          current_model := s.current_model ++
            [ strL "\t" ++ pyCapitalize name ++ strL "ID\t\tint64\t" ++
                strL "`gorm:\"foreignKey:" ++ name ++
                strL "_id;association_foreignkey:id\"`",
              strL "\t" ++ pyCapitalize name ++ strL "\t\t" ++ rel ],
          prev_line := name ++ (strL " = " ++ (strL "models." ++
            (strL "ForeignKey" ++ ('(' :: (rel ++ strL ")"))))),
          lineno := s.lineno + 1 } ∧
    step s (name ++ (strL " = " ++ (strL "models." ++
        (strL "OneToOneField" ++ ('(' :: (rel ++ strL ")")))))) =
      { s with
          current_model := s.current_model ++
            [ strL "\t" ++ pyCapitalize name ++ strL "ID\t\tint64\t" ++
                strL "`gorm:\"foreignKey:" ++ name ++ strL "_id\"`",
              strL "\t" ++ pyCapitalize name ++ strL "\t\t" ++ rel ],
          prev_line := name ++ (strL " = " ++ (strL "models." ++
            (strL "OneToOneField" ++ ('(' :: (rel ++ strL ")"))))),
          lineno := s.lineno + 1 } := by
  have hi1 := hnm.2.2.2.2.2.2.1
  have hi2 := hnm.2.2.2.2.2.2.2.1
  have hi3 := hnm.2.2.2.2.2.2.2.2.1
  have hi4 := hnm.2.2.2.2.2.2.2.2.2
  have hre : '=' ∉ rel := hrel.2.2.1
  have hrp : ('(' :: (rel ++ strL ")")).getLast? = some ')' := by
    have e : '(' :: (rel ++ strL ")") = ('(' :: rel) ++ [')'] := by
      rw [show strL ")" = [')'] from rfl]
      simp
    rw [e, List.getLast?_concat]
  have hlast1 : ∀ c,
      (name ++ (strL " = " ++ (strL "models." ++
        (strL "ForeignKey" ++ ('(' :: (rel ++ strL ")")))))).getLast? =
        some c → c ≠ ':' ∧ pyIsSpace c = false := by
    intro c hc
    rw [List.getLast?_append, List.getLast?_append, List.getLast?_append,
      List.getLast?_append, hrp] at hc
    simp only [Option.or_some] at hc
    have hy : c = ')' := (Option.some.inj hc).symm
    subst hy
    exact ⟨by decide, by decide⟩
  have hlast2 : ∀ c,
      (name ++ (strL " = " ++ (strL "models." ++
        (strL "OneToOneField" ++ ('(' :: (rel ++ strL ")")))))).getLast? =
        some c → c ≠ ':' ∧ pyIsSpace c = false := by
    intro c hc
    rw [List.getLast?_append, List.getLast?_append, List.getLast?_append,
      List.getLast?_append, hrp] at hc
    simp only [Option.or_some] at hc
    have hy : c = ')' := (Option.some.inj hc).symm
    subst hy
    exact ⟨by decide, by decide⟩
  have hr1 : pyStrip (strL "models." ++
      (strL "ForeignKey" ++ ('(' :: (rel ++ strL ")")))) =
      strL "models." ++ (strL "ForeignKey" ++ ('(' :: (rel ++ strL ")"))) := by
    have e : strL "models." ++ (strL "ForeignKey" ++ ('(' :: (rel ++ strL ")"))) =
        'm' :: ((strL "odels." ++ (strL "ForeignKey" ++ ('(' :: rel))) ++ [')']) := by
      rw [show strL ")" = [')'] from rfl,
        show strL "models." = 'm' :: strL "odels." from rfl]
      simp
    rw [e]
    exact pyStrip_eq_self_of_ends (by decide) (by decide)
  have hr2 : pyStrip (strL "models." ++
      (strL "OneToOneField" ++ ('(' :: (rel ++ strL ")")))) =
      strL "models." ++ (strL "OneToOneField" ++ ('(' :: (rel ++ strL ")"))) := by
    have e : strL "models." ++ (strL "OneToOneField" ++ ('(' :: (rel ++ strL ")"))) =
        'm' :: ((strL "odels." ++ (strL "OneToOneField" ++ ('(' :: rel))) ++ [')']) := by
      rw [show strL ")" = [')'] from rfl,
        show strL "models." = 'm' :: strL "odels." from rfl]
      simp
    rw [e]
    exact pyStrip_eq_self_of_ends (by decide) (by decide)
  have heq1 : '=' ∉ strL "models." ++ (strL "ForeignKey" ++ ('(' :: (rel ++ strL ")"))) := by
    intro hx
    rcases List.mem_append.1 hx with hx | hx
    · simp [strL] at hx
    · rcases List.mem_append.1 hx with hx | hx
      · simp [strL] at hx
      · rcases List.mem_cons.1 hx with hx | hx
        · simp at hx
        · rcases List.mem_append.1 hx with hx | hx
          · exact hre hx
          · simp [strL] at hx
  have heq2 : '=' ∉ strL "models." ++ (strL "OneToOneField" ++ ('(' :: (rel ++ strL ")"))) := by
    intro hx
    rcases List.mem_append.1 hx with hx | hx
    · simp [strL] at hx
    · rcases List.mem_append.1 hx with hx | hx
      · simp [strL] at hx
      · rcases List.mem_cons.1 hx with hx | hx
        · simp at hx
        · rcases List.mem_append.1 hx with hx | hx
          · exact hre hx
          · simp [strL] at hx
  constructor
  · rw [step_template s name _ hnm hab hin hprev hdef1
        ⟨strL "ForeignKey" ++ ('(' :: (rel ++ strL ")")), rfl⟩ hr1 heq1 hlast1,
      fieldCore_fk s _ name rel hi1 hi2 hi3 hi4 hrel]
  · rw [step_template s name _ hnm hab hin hprev hdef2
        ⟨strL "OneToOneField" ++ ('(' :: (rel ++ strL ")")), rfl⟩ hr2 heq2 hlast2,
      fieldCore_o2o s _ name rel hi1 hi2 hi3 hi4 hrel]

/-- C7 (witness): the paired emission at a concrete open state, field name
`user` and related declaration `Profile`. -/
theorem c7_relationship_pair_witness :
    step c2wstate (strL "user" ++ (strL " = " ++ (strL "models." ++
        (strL "ForeignKey" ++ ('(' :: (strL "Profile" ++ strL ")")))))) =
      { c2wstate with
          current_model := c2wstate.current_model ++
            [ strL "\t" ++ pyCapitalize (strL "user") ++ strL "ID\t\tint64\t" ++
                strL "`gorm:\"foreignKey:" ++ strL "user" ++
                strL "_id;association_foreignkey:id\"`",
              strL "\t" ++ pyCapitalize (strL "user") ++ strL "\t\t" ++
                strL "Profile" ],
          prev_line := strL "user" ++ (strL " = " ++ (strL "models." ++
            (strL "ForeignKey" ++ ('(' :: (strL "Profile" ++ strL ")"))))),
          lineno := c2wstate.lineno + 1 } :=
  (c7_relationship_pair c2wstate (strL "user") (strL "Profile") (by decide)
    (by decide) (by decide) (by decide) (by decide) (by decide) (by decide)).1

/-- C1 (counterexample): with the explicit identifier `app_foos2` assigned
after a field was translated under the default identifier `app_foos`, the
blind global substitution mangles the accessor (it returns `app_foos22`, not
the explicit `app_foos2`), and the default identifier string still occurs in
the rendered block — contrary to both halves of the claim. -/
theorem c1_counterexample :
    convertLines c1input false false false = some c1res ∧
    (strL "\treturn \"app_foos22\"") ∈ c1res.lines ∧
    (strL "\treturn \"app_foos2\"") ∉ c1res.lines ∧
    c1res.lines.any (fun ln => containsSub ln (strL "app_foos")) = true := by
  decide

/-- C1 (amended): at declaration-close time with an explicit identifier, the
emitted block consists of the buffered lines, the closing brace and blank
line, and a TableName accessor built from the explicit identifier, each
subjected to a literal global substitution of the default identifier by the
explicit one; when the explicit identifier is non-empty and shares no
character with the default identifier, and the default identifier occurs in
no line of the accessor text, the accessor lines pass through the
substitution unchanged — so the emitted block contains the accessor line
returning the explicit identifier — and the default identifier occurs in no
line of the emitted block. -/
theorem c1_amended (s : ConvState)
    (hc : s.custom_table_name = true)
    (hd : s.default_table_name ≠ []) (ht : s.table_name ≠ [])
    (hdis : ∀ c ∈ s.table_name, c ∉ s.default_table_name)
    (hacc : ∀ ln ∈ accessorLines s.model_name s.table_name,
      ¬ s.default_table_name <:+: ln) :
    closeBlock s = ((s.current_model ++ [strL "\x7d", []]) ++
        accessorLines s.model_name s.table_name).map
      (pyReplace s.default_table_name s.table_name) ∧
    closeBlock s = (s.current_model ++ [strL "\x7d", []]).map
        (pyReplace s.default_table_name s.table_name) ++
      accessorLines s.model_name s.table_name ∧
    (strL "\treturn \"" ++ s.table_name ++ strL "\"") ∈ closeBlock s ∧
    ∀ ln ∈ closeBlock s, ¬ s.default_table_name <:+: ln := by
  have h1 : closeBlock s = ((s.current_model ++ [strL "\x7d", []]) ++
      accessorLines s.model_name s.table_name).map
        (pyReplace s.default_table_name s.table_name) := by
    simp [closeBlock, hc]
  have hmapacc : (accessorLines s.model_name s.table_name).map
      (pyReplace s.default_table_name s.table_name) =
      accessorLines s.model_name s.table_name := by
    have hcong : ∀ ln ∈ accessorLines s.model_name s.table_name,
        pyReplace s.default_table_name s.table_name ln = id ln :=
      fun ln hln => pyReplace_of_not_infix hd (hacc ln hln)
    rw [List.map_congr_left hcong, List.map_id]
  have h2 : closeBlock s = (s.current_model ++ [strL "\x7d", []]).map
      (pyReplace s.default_table_name s.table_name) ++
      accessorLines s.model_name s.table_name := by
    rw [h1, List.map_append, hmapacc]
  refine ⟨h1, h2, ?_, ?_⟩
  · rw [h2]
    exact List.mem_append_right _ (by simp [accessorLines])
  · intro ln hln
    rw [h1] at hln
    obtain ⟨x, _, rfl⟩ := List.mem_map.1 hln
    exact pyReplace_not_infix hd ht hdis x

/-- C1 (witness): the amended close-with-rewrite behaviour at a concrete
buffered declaration whose explicit identifier `xyz` shares no character
with the default `app_foos`, which in turn occurs nowhere in the accessor
text: the block carries the accessor returning `xyz` untouched. -/
theorem c1_amended_witness :
    closeBlock c1wstate = ((c1wstate.current_model ++ [strL "\x7d", []]) ++
        accessorLines c1wstate.model_name c1wstate.table_name).map
      (pyReplace c1wstate.default_table_name c1wstate.table_name) ∧
    closeBlock c1wstate = (c1wstate.current_model ++ [strL "\x7d", []]).map
        (pyReplace c1wstate.default_table_name c1wstate.table_name) ++
      accessorLines c1wstate.model_name c1wstate.table_name ∧
    (strL "\treturn \"" ++ c1wstate.table_name ++ strL "\"") ∈
      closeBlock c1wstate ∧
    ∀ ln ∈ closeBlock c1wstate, ¬ c1wstate.default_table_name <:+: ln :=
  c1_amended c1wstate (by decide) (by decide) (by decide) (by decide)
    (by decide)


set_option maxHeartbeats 1000000 in
/-- The field translator never touches the table-name resolver state. -/
theorem processField_preserves (s : ConvState) (l : Line) :
    (processField s l).custom_table_name = s.custom_table_name ∧
    (processField s l).table_name = s.table_name ∧
    (processField s l).got_custom_tables = s.got_custom_tables := by
  unfold processField fieldCore
  dsimp only
  refine ⟨?_, ?_, ?_⟩ <;>
    (repeat' split) <;> rfl

/-- C6 (counterexample): the table-name routing fires although the previous
non-empty trimmed line is NOT exactly the metadata-block marker — containing
it as a proper substring suffices; and with a blank line between the marker
and the assignment the routing does NOT fire even though the preceding
non-empty trimmed line is exactly the marker. -/
theorem c6_counterexample :
    (step c6state (strL "db_table = \"custom\"")).custom_table_name = true ∧
    (step c6state (strL "db_table = \"custom\"")).table_name = strL "custom" ∧
    (step c6state (strL "db_table = \"custom\"")).current_model =
      c6state.current_model ∧
    c6state.prev_line ≠ strL "class Meta:" ∧
    pyStrip c6state.prev_line = c6state.prev_line ∧
    c6state.prev_line ≠ [] ∧
    (convertLines c6input2 false false false).isSome = true ∧
    ((convertLines c6input2 false false false).getD ⟨[], []⟩).errors = [] ∧
    ((convertLines c6input2 false false false).getD ⟨[], []⟩).lines.all
      (fun ln => !(containsSub ln (strL "custom"))) = true := by
  decide

/-- C6 (amended): while a declaration is open, a non-boundary line is routed
to the table-name resolver — recording the explicit identifier and never
touching the declaration buffer — if and only if it mentions the table-name
key and an equals sign, does not start with the comment marker, and the
immediately preceding trimmed line (empty lines included, so an intervening
blank line defeats recognition) contains the metadata-block marker as a
substring; otherwise the resolver state is unchanged. -/
theorem c6_amended (s : ConvState) (raw : Line)
    (hab : s.aborted = false) (hin : s.in_model_def = true)
    (hdef : (strL "def ").isPrefixOf raw = false)
    (hclass : classStartB (pyStrip raw) = false) :
    (dbTableCondB (pyStrip raw) s.prev_line = true →
      step s raw = { s with
                       custom_table_name := true, got_custom_tables := true,
                       table_name := extractTableName (pyStrip raw),
                       prev_line := pyStrip raw, lineno := s.lineno + 1 }) ∧
    (dbTableCondB (pyStrip raw) s.prev_line = false →
      (step s raw).custom_table_name = s.custom_table_name ∧
      (step s raw).table_name = s.table_name ∧
      (step s raw).got_custom_tables = s.got_custom_tables) := by
  constructor
  · intro hdb
    simp [step, hab, hdef, hin, hclass, hdb]
  · intro hdb
    have hpp := processField_preserves s (pyStrip raw)
    simp only [step, hab, hdef, hin, hclass, hdb, Bool.false_eq_true, if_false,
      Bool.false_and, Bool.and_self, if_true]
    split
    · simp
    · split
      · simp
      · split
        · exact ⟨hpp.1, hpp.2.1, hpp.2.2⟩
        · simp

/-- C6 (witness): the amended routing rule at a concrete open state whose
previous line properly contains the metadata marker. -/
theorem c6_amended_witness :
    step c6state (strL "db_table = \"custom\"") =
      { c6state with
          custom_table_name := true, got_custom_tables := true,
          table_name := extractTableName (pyStrip (strL "db_table = \"custom\"")),
          prev_line := pyStrip (strL "db_table = \"custom\""),
          lineno := c6state.lineno + 1 } :=
  (c6_amended c6state (strL "db_table = \"custom\"") (by decide) (by decide)
    (by decide) (by decide)).1 (by decide)

/-- C10 (counterexample): a declaration-start line seen while a declaration
is open satisfies every condition of the claim (it is not the
explicit-table-identifier assignment, starts with neither comment marker,
and does not contain both `=` and the constructor-namespace token), yet it
is not dropped silently: it closes the open declaration and appends its
rendered block to the output. -/
theorem c10_counterexample :
    (step c2wstate (strL "class Bar(models.Model):")).out_lines ≠
      c2wstate.out_lines ∧
    dbTableCondB (pyStrip (strL "class Bar(models.Model):"))
      c2wstate.prev_line = false ∧
    (strL "\"\"\"").isPrefixOf (pyStrip (strL "class Bar(models.Model):")) = false ∧
    (strL "#").isPrefixOf (pyStrip (strL "class Bar(models.Model):")) = false ∧
    (containsSub (pyStrip (strL "class Bar(models.Model):")) (strL "=") &&
      containsSub (pyStrip (strL "class Bar(models.Model):")) (strL "models.")) =
      false := by
  decide

/-- C10 (amended): while a declaration is open, every trimmed line that does
not match the declaration-start pattern, is not an unindented
procedure-start line, is not the explicit-table-identifier assignment, does
not start with a docstring or comment marker, and does not contain both an
`=` and the constructor-namespace token, is dropped silently: the step
changes only the previous-line tracker and the line counter — no output
line, no buffered line and no Diagnostic is added. -/
theorem c10_amended (s : ConvState) (raw : Line)
    (hab : s.aborted = false) (hin : s.in_model_def = true)
    (hdef : (strL "def ").isPrefixOf raw = false)
    (hclass : classStartB (pyStrip raw) = false)
    (hdb : dbTableCondB (pyStrip raw) s.prev_line = false)
    (hq : (strL "\"\"\"").isPrefixOf (pyStrip raw) = false)
    (hh : (strL "#").isPrefixOf (pyStrip raw) = false)
    (hem : (containsSub (pyStrip raw) (strL "=") &&
            containsSub (pyStrip raw) (strL "models.")) = false) :
    step s raw = { s with prev_line := pyStrip raw, lineno := s.lineno + 1 } := by
  simp [step, hab, hdef, hin, hclass, hdb, hq, hh, hem]

/-- C10 (witness): an indented method-definition line inside an open
declaration is dropped silently. -/
theorem c10_amended_witness :
    step c2wstate (strL "    def save(self, x):") =
      { c2wstate with
          prev_line := pyStrip (strL "    def save(self, x):"),
          lineno := c2wstate.lineno + 1 } :=
  c10_amended c2wstate (strL "    def save(self, x):") (by decide) (by decide)
    (by decide) (by decide) (by decide) (by decide) (by decide) (by decide)

/-- In the fixed struct suffix, the character `s` occurs only at index 1. -/
theorem structLit_s_index (m : Nat)
    (hm : (strL " struct \x7b")[m]? = some 's') : m = 1 := by
  by_cases h9 : m < 9
  · interval_cases m <;> (revert hm; decide)
  · exfalso
    rw [List.getElem?_eq_none (by
      rw [show (strL " struct \x7b").length = 9 from rfl]
      omega)] at hm
    exact Option.noConfusion hm

/-- The default table identifier of a declaration is never a substring of
that declaration's struct-header line, whatever the declaration name. -/
theorem defaultName_not_infix_header (mn : Line) :
    ¬ (strL "app_" ++ pyLower mn ++ strL "s") <:+:
      (strL "type " ++ mn ++ strL " struct \x7b") := by
  rintro ⟨s₁, s₂, heq⟩
  have hget : ∀ n : Nat,
      ((s₁ ++ (strL "app_" ++ pyLower mn ++ strL "s")) ++ s₂)[n]? =
      ((strL "type " ++ mn) ++ strL " struct \x7b")[n]? := by
    intro n
    rw [heq]
  have la : (strL "app_").length = 4 := rfl
  have ls : (strL "s").length = 1 := rfl
  have lt : (strL "type ").length = 5 := rfl
  have llow : (pyLower mn).length = mn.length := by simp [pyLower]
  have hdlen : (strL "app_" ++ pyLower mn ++ strL "s").length = mn.length + 5 := by
    simp [List.length_append, la, ls, llow]
    omega
  have htm : (strL "type " ++ mn).length = mn.length + 5 := by
    simp [List.length_append, lt]
    omega
  match s₁ with
  | [] =>
    have h0 := hget 0
    rw [List.nil_append] at h0
    have e1 : ((strL "app_" ++ pyLower mn ++ strL "s") ++ s₂)[0]? = some 'a' := rfl
    have e2 : ((strL "type " ++ mn) ++ strL " struct \x7b")[0]? = some 't' := rfl
    rw [e1, e2] at h0
    exact absurd (Option.some.inj h0) (by decide)
  | c :: s₁' =>
    have hs1pos : 1 ≤ (c :: s₁').length := by simp
    have hp := hget ((c :: s₁').length + (mn.length + 4))
    rw [List.getElem?_append_left (by
      rw [List.length_append, hdlen]
      omega)] at hp
    rw [List.getElem?_append_right (by omega)] at hp
    rw [Nat.add_sub_cancel_left] at hp
    have hd2 : strL "app_" ++ pyLower mn ++ strL "s" =
        (strL "app_" ++ pyLower mn) ++ strL "s" := rfl
    rw [hd2, List.getElem?_append_right (by
      rw [List.length_append, la, llow]
      omega)] at hp
    have hidx : mn.length + 4 - (strL "app_" ++ pyLower mn).length = 0 := by
      rw [List.length_append, la, llow]
      omega
    rw [hidx] at hp
    have es : (strL "s")[0]? = some 's' := rfl
    rw [es] at hp
    rw [List.getElem?_append_right (by
      rw [htm]
      omega)] at hp
    have hidx2 : (c :: s₁').length + (mn.length + 4) - (strL "type " ++ mn).length =
        (c :: s₁').length - 1 := by
      rw [htm]
      omega
    rw [hidx2] at hp
    have hs2 : (c :: s₁').length = 2 := by
      have := structLit_s_index _ hp.symm
      omega
    have hp2 := hget 2
    rw [List.getElem?_append_left (by
      rw [List.length_append, hdlen]
      omega)] at hp2
    rw [List.getElem?_append_right (by omega)] at hp2
    have hidx3 : 2 - (c :: s₁').length = 0 := by omega
    rw [hidx3] at hp2
    have ea : (strL "app_" ++ pyLower mn ++ strL "s")[0]? = some 'a' := rfl
    rw [ea] at hp2
    rw [List.getElem?_append_left (by
      rw [htm]
      omega)] at hp2
    have hmn0 : mn.length + 5 = (strL "type " ++ mn).length := htm.symm
    have ep : (strL "type " ++ mn)[2]? = some 'p' := by
      rw [List.getElem?_append_left (by rw [lt]; omega)]
      rfl
    rw [ep] at hp2
    exact absurd (Option.some.inj hp2) (by decide)

/-- A declaration header equal to the identity header names `User`. -/
theorem header_eq_target {mn : Line}
    (h : strL "type " ++ mn ++ strL " struct \x7b" = headerTarget) :
    mn = strL "User" := by
  have ht : headerTarget = strL "type " ++ strL "User" ++ strL " struct \x7b" := rfl
  rw [ht] at h
  exact List.append_cancel_left (List.append_cancel_right h)

/-- The default table identifier is a non-empty line starting with `a`. -/
theorem defaultName_cons (mn : Line) :
    strL "app_" ++ pyLower mn ++ strL "s" =
      'a' :: ((strL "pp_" ++ pyLower mn) ++ strL "s") := rfl

/-- The closing of a declaration whose buffer has the invariant shape and
whose name is not `User` emits no identity-header line, whatever the
explicit table name is. -/
theorem closeBlock_no_header (s : ConvState)
    (hmn : s.model_name ≠ strL "User")
    (hdf : s.default_table_name = strL "app_" ++ pyLower s.model_name ++ strL "s")
    (hcm : ∃ rest, s.current_model =
        (strL "type " ++ s.model_name ++ strL " struct \x7b") :: rest ∧
      ∀ ln ∈ rest, ln.head? = some '\t') :
    (closeBlock s).countP (fun ln => decide (ln = headerTarget)) = 0 := by
  obtain ⟨rest, hcme, hrest⟩ := hcm
  have hdneq : s.default_table_name ≠ [] := by
    rw [hdf, defaultName_cons]
    simp
  have hhead : ∀ x : Line, x.head? = some '\t' → x ≠ headerTarget := by
    intro x hx he
    rw [he] at hx
    exact absurd (Option.some.inj hx) (by decide)
  have hheadf : ∀ x : Line, x.head? = some 'f' → x ≠ headerTarget := by
    intro x hx he
    rw [he] at hx
    exact absurd (Option.some.inj hx) (by decide)
  have hrepl : ∀ x : Line, x.head? = some '\t' ∨ x.head? = some 'f' ∨
      x = strL "\x7d" ∨ x = [] →
      ∀ t, pyReplace s.default_table_name t x ≠ headerTarget := by
    intro x hx t
    have hdc := hdf.trans (defaultName_cons s.model_name)
    rcases hx with hx | hx | hx | hx
    · obtain ⟨x₀, xt, rfl⟩ : ∃ x₀ xt, x = x₀ :: xt := by
        cases x with
        | nil => simp at hx
        | cons a b => exact ⟨a, b, rfl⟩
      have hx0 : x₀ = '\t' := by
        simpa using Option.some.inj hx
      subst hx0
      rw [hdc, pyReplace_cons (by simp), isPrefixOf_cons_of_head_ne (by decide)]
      simp only [Bool.false_eq_true, if_false]
      intro he
      have hh2 := congrArg List.head? he
      simp only [List.head?_cons] at hh2
      exact absurd hh2 (by decide)
    · obtain ⟨x₀, xt, rfl⟩ : ∃ x₀ xt, x = x₀ :: xt := by
        cases x with
        | nil => simp at hx
        | cons a b => exact ⟨a, b, rfl⟩
      have hx0 : x₀ = 'f' := by
        simpa using Option.some.inj hx
      subst hx0
      rw [hdc, pyReplace_cons (by simp), isPrefixOf_cons_of_head_ne (by decide)]
      simp only [Bool.false_eq_true, if_false]
      intro he
      have hh2 := congrArg List.head? he
      simp only [List.head?_cons] at hh2
      exact absurd hh2 (by decide)
    · subst hx
      have ebr : strL "\x7d" = '\x7d' :: ([] : Line) := rfl
      rw [ebr, hdc, pyReplace_cons (by simp), isPrefixOf_cons_of_head_ne (by decide)]
      simp only [Bool.false_eq_true, if_false]
      rw [pyReplace_nil]
      intro he
      have hh2 := congrArg List.head? he
      simp only [List.head?_cons] at hh2
      exact absurd hh2 (by decide)
    · subst hx
      rw [pyReplace_nil]
      intro he
      exact absurd he (by decide)
  have hheader : ∀ t, pyReplace s.default_table_name t
      (strL "type " ++ s.model_name ++ strL " struct \x7b") ≠ headerTarget := by
    intro t
    rw [hdf, pyReplace_of_not_infix (by rw [defaultName_cons]; simp)
      (defaultName_not_infix_header s.model_name)]
    intro he
    exact hmn (header_eq_target he)
  rw [List.countP_eq_zero]
  intro ln hln
  simp only [decide_eq_true_eq]
  intro hlneq
  subst hlneq
  unfold closeBlock at hln
  by_cases hcu : s.custom_table_name = true
  · rw [if_pos hcu] at hln
    obtain ⟨x, hxmem, hxr⟩ := List.mem_map.1 hln
    rw [hcme] at hxmem
    rcases List.mem_append.1 hxmem with hxm | hxm
    · rcases List.mem_cons.1 hxm with rfl | hxm
      · exact hheader s.table_name hxr
      · rcases List.mem_append.1 hxm with hxm | hxm
        · exact hrepl x (Or.inl (hrest x hxm)) s.table_name hxr
        · rcases List.mem_cons.1 hxm with rfl | hxm
          · exact hrepl (strL "\x7d") (Or.inr (Or.inr (Or.inl rfl))) s.table_name hxr
          · have : x = [] := by simpa using hxm
            subst this
            exact hrepl [] (Or.inr (Or.inr (Or.inr rfl))) s.table_name hxr
    · unfold accessorLines at hxm
      rcases List.mem_cons.1 hxm with rfl | hxm
      · refine hrepl _ (Or.inr (Or.inl ?_)) s.table_name hxr
        rfl
      · rcases List.mem_cons.1 hxm with rfl | hxm
        · refine hrepl _ (Or.inl ?_) s.table_name hxr
          rfl
        · rcases List.mem_cons.1 hxm with rfl | hxm
          · exact hrepl (strL "\x7d") (Or.inr (Or.inr (Or.inl rfl))) s.table_name hxr
          · have : x = [] := by simpa using hxm
            subst this
            exact hrepl [] (Or.inr (Or.inr (Or.inr rfl))) s.table_name hxr
  · rw [if_neg hcu] at hln
    rw [hcme] at hln
    rcases List.mem_cons.1 hln with hx | hln
    · exact hmn (header_eq_target hx.symm)
    · rcases List.mem_append.1 hln with hxm | hxm
      · exact hhead _ (hrest _ hxm) rfl
      · rcases List.mem_cons.1 hxm with hx | hxm
        · exact absurd (congrArg List.head? hx) (by decide)
        · have hemp : headerTarget = [] := by simpa using hxm
          exact absurd hemp (by decide)

set_option maxHeartbeats 1000000 in
/-- The field translator leaves every state component except the declaration
buffer, the diagnostics list and the abort flag unchanged. -/
theorem processField_preserves2 (s : ConvState) (l : Line) :
    (processField s l).out_lines = s.out_lines ∧
    (processField s l).found_user_table = s.found_user_table ∧
    (processField s l).found_group_table = s.found_group_table ∧
    (processField s l).in_model_def = s.in_model_def ∧
    (processField s l).model_name = s.model_name ∧
    (processField s l).default_table_name = s.default_table_name ∧
    (processField s l).last_model_closed = s.last_model_closed := by
  unfold processField fieldCore
  dsimp only
  refine ⟨?_, ?_, ?_, ?_, ?_, ?_, ?_⟩ <;> (repeat' split) <;> rfl

set_option maxHeartbeats 1000000 in
/-- The field translator either aborts or extends the declaration buffer by
tab-indented lines only. -/
theorem processField_cm (s : ConvState) (l : Line) :
    (processField s l).aborted = true ∨
    ∃ new, (processField s l).current_model = s.current_model ++ new ∧
      ∀ ln ∈ new, ln.head? = some '\t' := by
  unfold processField fieldCore
  dsimp only
  repeat' split
  all_goals first
    | exact Or.inl rfl
    | exact Or.inr ⟨[], (List.append_nil _).symm,
        fun ln hln => absurd hln (List.not_mem_nil ln)⟩
    | exact Or.inr ⟨_, rfl, fun ln hln => by
        rcases List.mem_cons.1 hln with rfl | hln2
        · rfl
        · first
            | (rcases List.mem_cons.1 hln2 with rfl | hln3
               · rfl
               · exact absurd hln3 (List.not_mem_nil ln))
            | exact absurd hln2 (List.not_mem_nil ln)⟩

/-- An unindented procedure-start line never strips to a declaration
start. -/
theorem classStartB_of_def {raw : Line}
    (h : (strL "def ").isPrefixOf raw = true) :
    classStartB (pyStrip raw) = false := by
  obtain ⟨r, hr⟩ := List.isPrefixOf_iff_prefix.1 h
  have hraw : raw = 'd' :: (strL "ef " ++ r) := by rw [← hr]; rfl
  have hps : pyStrip raw = 'd' :: dropTrail pyIsSpace (strL "ef " ++ r) := by
    rw [hraw]
    unfold pyStrip
    rw [List.dropWhile_cons, if_neg (by decide)]
    exact dropTrail_cons_of_neg (by decide)
  unfold classStartB
  rw [hps]
  have ecl : strL "class" = 'c' :: strL "lass" := rfl
  rw [ecl, isPrefixOf_cons_of_head_ne (by decide), Bool.false_and]

/-- A false Boolean conjunction with a true right-hand side has a false
left-hand side. -/
theorem bool_and_false_left {a b : Bool} (h : (a && b) = false) (hb : b = true) :
    a = false := by
  subst hb
  simpa using h

set_option maxHeartbeats 1600000 in
/-- One scanning step preserves the no-identity-declaration invariant when
the line does not open a `User`-named declaration. -/
theorem step_NoUserInv (s : ConvState) (raw : Line)
    (hU : ¬(classStartB (pyStrip raw) = true ∧
            extractedName (pyStrip raw) = strL "User"))
    (hI : NoUserInv s) : NoUserInv (step s raw) := by
  by_cases hab : s.aborted = true
  · have he : step s raw = s := by simp [step, hab]
    rw [he]
    exact hI
  have hab' : s.aborted = false := by
    revert hab
    cases s.aborted <;> simp
  rcases hI with hab2 | ⟨hfu, hout, hinm, hninm⟩
  · exact absurd hab2 hab
  by_cases h1 : ((strL "def ").isPrefixOf raw && s.in_model_def) = true
  · rw [Bool.and_eq_true] at h1
    obtain ⟨h1a, h1b⟩ := h1
    have hcls : classStartB (pyStrip raw) = false := classStartB_of_def h1a
    obtain ⟨hmn, hdf, hcm⟩ := hinm h1b
    have heq : step s raw =
        { s with
            in_model_def := false,
            out_lines := s.out_lines ++ closeBlock s,
            last_model_closed := true,
            current_model := [],
            prev_line := pyStrip raw,
            lineno := s.lineno + 1 } := by
      simp [step, hab', h1a, h1b, hcls]
    rw [heq]
    right
    refine ⟨hfu, ?_, ?_, ?_⟩
    · show (s.out_lines ++ closeBlock s).countP
        (fun ln => decide (ln = headerTarget)) = 0
      rw [List.countP_append, hout, closeBlock_no_header s hmn hdf hcm]
    · intro hx
      exact Bool.noConfusion hx
    · intro _
      exact ⟨rfl, Or.inr rfl⟩
  have h1f : ((strL "def ").isPrefixOf raw && s.in_model_def) = false := by
    revert h1
    cases ((strL "def ").isPrefixOf raw && s.in_model_def) <;> simp
  by_cases hcls : classStartB (pyStrip raw) = true
  · have hmnne : extractedName (pyStrip raw) ≠ strL "User" :=
      fun hme => hU ⟨hcls, hme⟩
    by_cases him : s.in_model_def = true
    · have hdefb : (strL "def ").isPrefixOf raw = false :=
        bool_and_false_left h1f him
      have hdefp : ¬ strL "def " <+: raw := by
        intro hp
        rw [← List.isPrefixOf_iff_prefix, hdefb] at hp
        exact Bool.noConfusion hp
      obtain ⟨hmn, hdf, hcm⟩ := hinm him
      by_cases hcrash : (pySplit1 ' ' (pyStrip raw)).length < 2
      · left
        simp [step, hab', hdefb, hdefp, hcls, him, hcrash]
      · have heq : step s raw =
            { s with
                out_lines := s.out_lines ++ closeBlock s,
                last_model_closed := false,
                in_model_def := true,
                model_name := extractedName (pyStrip raw),
                found_user_table := s.found_user_table ||
                  decide (extractedName (pyStrip raw) = strL "User"),
                found_group_table := s.found_group_table ||
                  decide (extractedName (pyStrip raw) = strL "Group"),
                table_name := strL "app_" ++
                  pyLower (extractedName (pyStrip raw)) ++ strL "s",
                default_table_name := strL "app_" ++
                  pyLower (extractedName (pyStrip raw)) ++ strL "s",
                custom_table_name := false,
                current_model := [strL "type " ++
                  extractedName (pyStrip raw) ++ strL " struct \x7b"],
                prev_line := pyStrip raw,
                lineno := s.lineno + 1 } := by
          simp [step, hab', hdefb, hdefp, hcls, him, hcrash, extractedName]
        rw [heq]
        right
        refine ⟨?_, ?_, ?_, ?_⟩
        · show (s.found_user_table ||
            decide (extractedName (pyStrip raw) = strL "User")) = false
          simp [hfu, hmnne]
        · show (s.out_lines ++ closeBlock s).countP
            (fun ln => decide (ln = headerTarget)) = 0
          rw [List.countP_append, hout, closeBlock_no_header s hmn hdf hcm]
        · intro _
          exact ⟨hmnne, rfl,
            ⟨[], rfl, fun ln hln => absurd hln (List.not_mem_nil ln)⟩⟩
        · intro hx
          exact Bool.noConfusion hx
    · have him' : s.in_model_def = false := by
        revert him
        cases s.in_model_def <;> simp
      obtain ⟨hcm0, _⟩ := hninm him'
      by_cases hcrash : (pySplit1 ' ' (pyStrip raw)).length < 2
      · left
        simp [step, hab', h1f, him', hcls, hcrash]
      · have heq : step s raw =
            { s with
                last_model_closed := false,
                in_model_def := true,
                model_name := extractedName (pyStrip raw),
                found_user_table := s.found_user_table ||
                  decide (extractedName (pyStrip raw) = strL "User"),
                found_group_table := s.found_group_table ||
                  decide (extractedName (pyStrip raw) = strL "Group"),
                table_name := strL "app_" ++
                  pyLower (extractedName (pyStrip raw)) ++ strL "s",
                default_table_name := strL "app_" ++
                  pyLower (extractedName (pyStrip raw)) ++ strL "s",
                custom_table_name := false,
                current_model := [strL "type " ++
                  extractedName (pyStrip raw) ++ strL " struct \x7b"],
                prev_line := pyStrip raw,
                lineno := s.lineno + 1 } := by
          simp [step, hab', h1f, him', hcls, hcrash, extractedName, hcm0]
        rw [heq]
        right
        refine ⟨?_, hout, ?_, ?_⟩
        · show (s.found_user_table ||
            decide (extractedName (pyStrip raw) = strL "User")) = false
          simp [hfu, hmnne]
        · intro _
          exact ⟨hmnne, rfl,
            ⟨[], rfl, fun ln hln => absurd hln (List.not_mem_nil ln)⟩⟩
        · intro hx
          exact Bool.noConfusion hx
  · have hclsf : classStartB (pyStrip raw) = false := by
      revert hcls
      cases classStartB (pyStrip raw) <;> simp
    by_cases him : s.in_model_def = true
    · have hdefb : (strL "def ").isPrefixOf raw = false :=
        bool_and_false_left h1f him
      have hdefp : ¬ strL "def " <+: raw := by
        intro hp
        rw [← List.isPrefixOf_iff_prefix, hdefb] at hp
        exact Bool.noConfusion hp
      by_cases hdb : dbTableCondB (pyStrip raw) s.prev_line = true
      · have heq : step s raw =
            { s with
                custom_table_name := true,
                got_custom_tables := true,
                table_name := extractTableName (pyStrip raw),
                prev_line := pyStrip raw,
                lineno := s.lineno + 1 } := by
          simp [step, hab', hdefb, hdefp, hclsf, him, hdb]
        rw [heq]
        right
        exact ⟨hfu, hout, fun _ => hinm him,
          fun hx => absurd (him.symm.trans hx) (by decide)⟩
      · have hdbf : dbTableCondB (pyStrip raw) s.prev_line = false := by
          revert hdb
          cases dbTableCondB (pyStrip raw) s.prev_line <;> simp
        obtain ⟨hmn, hdf, ⟨rest, hcme, hrest⟩⟩ := hinm him
        by_cases hq : (strL "\"\"\"").isPrefixOf (pyStrip raw) = true
        · have heq : step s raw =
              { s with
                  current_model := s.current_model ++
                    [strL "\t// " ++ pyReplace (strL "\"\"\"") [] (pyStrip raw)],
                  prev_line := pyStrip raw,
                  lineno := s.lineno + 1 } := by
            simp [step, hab', hdefb, hdefp, hclsf, him, hdbf, hq]
          rw [heq]
          right
          refine ⟨hfu, hout, ?_, fun hx => absurd (him.symm.trans hx) (by decide)⟩
          intro _
          refine ⟨hmn, hdf, ⟨rest ++
            [strL "\t// " ++ pyReplace (strL "\"\"\"") [] (pyStrip raw)], ?_, ?_⟩⟩
          · show s.current_model ++ _ = _
            rw [hcme]
            simp
          · intro ln hln
            rcases List.mem_append.1 hln with hx | hx
            · exact hrest ln hx
            · have he2 : ln = strL "\t// " ++
                  pyReplace (strL "\"\"\"") [] (pyStrip raw) := by
                simpa using hx
              rw [he2]
              rfl
        · have hqf : (strL "\"\"\"").isPrefixOf (pyStrip raw) = false := by
            revert hq
            cases (strL "\"\"\"").isPrefixOf (pyStrip raw) <;> simp
          by_cases hh : (strL "#").isPrefixOf (pyStrip raw) = true
          · have heq : step s raw =
                { s with
                    current_model := s.current_model ++
                      [strL "\t// " ++ pyReplace (strL "#") [] (pyStrip raw)],
                    prev_line := pyStrip raw,
                    lineno := s.lineno + 1 } := by
              simp [step, hab', hdefb, hdefp, hclsf, him, hdbf, hqf, hh]
            rw [heq]
            right
            refine ⟨hfu, hout, ?_, fun hx => absurd (him.symm.trans hx) (by decide)⟩
            intro _
            refine ⟨hmn, hdf, ⟨rest ++
              [strL "\t// " ++ pyReplace (strL "#") [] (pyStrip raw)], ?_, ?_⟩⟩
            · show s.current_model ++ _ = _
              rw [hcme]
              simp
            · intro ln hln
              rcases List.mem_append.1 hln with hx | hx
              · exact hrest ln hx
              · have he2 : ln = strL "\t// " ++
                    pyReplace (strL "#") [] (pyStrip raw) := by
                  simpa using hx
                rw [he2]
                rfl
          · have hhf : (strL "#").isPrefixOf (pyStrip raw) = false := by
              revert hh
              cases (strL "#").isPrefixOf (pyStrip raw) <;> simp
            by_cases hfield : (containsSub (pyStrip raw) (strL "=") &&
                containsSub (pyStrip raw) (strL "models.")) = true
            · have heq : step s raw =
                  { (processField s (pyStrip raw)) with
                      prev_line := pyStrip raw,
                      lineno := (processField s (pyStrip raw)).lineno + 1 } := by
                simp [step, hab', hdefb, hdefp, hclsf, him, hdbf, hqf, hhf, hfield]
              rw [heq]
              rcases processField_cm s (pyStrip raw) with hpa | ⟨new, hcmn, hnew⟩
              · left
                exact hpa
              · right
                obtain ⟨hpo, hpfu, _, hpim, hpmn, hpdf, _⟩ :=
                  processField_preserves2 s (pyStrip raw)
                refine ⟨?_, ?_, ?_, ?_⟩
                · show (processField s (pyStrip raw)).found_user_table = false
                  rw [hpfu]
                  exact hfu
                · show (processField s (pyStrip raw)).out_lines.countP
                    (fun ln => decide (ln = headerTarget)) = 0
                  rw [hpo]
                  exact hout
                · intro _
                  refine ⟨?_, ?_, ?_⟩
                  · show (processField s (pyStrip raw)).model_name ≠ strL "User"
                    rw [hpmn]
                    exact hmn
                  · show (processField s (pyStrip raw)).default_table_name =
                      strL "app_" ++
                        pyLower (processField s (pyStrip raw)).model_name ++
                        strL "s"
                    rw [hpdf, hdf, hpmn]
                  · refine ⟨rest ++ new, ?_, ?_⟩
                    · show (processField s (pyStrip raw)).current_model =
                        (strL "type " ++
                          (processField s (pyStrip raw)).model_name ++
                          strL " struct \x7b") :: (rest ++ new)
                      rw [hcmn, hcme, hpmn]
                      simp
                    · intro ln hln
                      rcases List.mem_append.1 hln with hx | hx
                      · exact hrest ln hx
                      · exact hnew ln hx
                · intro hx
                  rw [hpim] at hx
                  exact absurd (him.symm.trans hx) (by decide)
            · have hfieldf : (containsSub (pyStrip raw) (strL "=") &&
                  containsSub (pyStrip raw) (strL "models.")) = false := by
                revert hfield
                cases (containsSub (pyStrip raw) (strL "=") &&
                  containsSub (pyStrip raw) (strL "models.")) <;> simp
              have heq : step s raw =
                  { s with
                      prev_line := pyStrip raw,
                      lineno := s.lineno + 1 } := by
                simp [step, hab', hdefb, hdefp, hclsf, him, hdbf, hqf, hhf,
                  hfieldf]
              rw [heq]
              right
              exact ⟨hfu, hout, fun _ => hinm him,
                fun hx => absurd (him.symm.trans hx) (by decide)⟩
    · have him' : s.in_model_def = false := by
        revert him
        cases s.in_model_def <;> simp
      have heq : step s raw =
          { s with
              prev_line := pyStrip raw,
              lineno := s.lineno + 1 } := by
        simp [step, hab', h1f, hclsf, him']
      rw [heq]
      right
      exact ⟨hfu, hout,
        fun hx => absurd (him'.symm.trans hx) (by decide),
        fun _ => hninm him'⟩

set_option maxHeartbeats 1600000 in
/-- The found-identity flag only changes at a declaration start, where it
absorbs a comparison of the extracted name with `User`. -/
theorem step_found_user_eq (s : ConvState) (raw : Line) :
    (step s raw).found_user_table = s.found_user_table ∨
    ((step s raw).found_user_table =
      (s.found_user_table || decide (extractedName (pyStrip raw) = strL "User")) ∧
     classStartB (pyStrip raw) = true) := by
  unfold step extractedName
  dsimp only
  repeat' split
  all_goals first
    | (left; rfl)
    | (left; exact (processField_preserves2 _ _).2.1)
    | (right; exact ⟨rfl, by assumption⟩)

set_option maxHeartbeats 1600000 in
/-- The found-group flag only changes at a declaration start, where it
absorbs a comparison of the extracted name with `Group`. -/
theorem step_found_group_eq (s : ConvState) (raw : Line) :
    (step s raw).found_group_table = s.found_group_table ∨
    ((step s raw).found_group_table =
      (s.found_group_table || decide (extractedName (pyStrip raw) = strL "Group")) ∧
     classStartB (pyStrip raw) = true) := by
  unfold step extractedName
  dsimp only
  repeat' split
  all_goals first
    | (left; rfl)
    | (left; exact (processField_preserves2 _ _).2.2.1)
    | (right; exact ⟨rfl, by assumption⟩)

/-- Scanning lines none of which starts a `User`-named declaration leaves
the found-identity flag unset. -/
theorem foldl_found_user_false :
    ∀ (ins : List Line) (s : ConvState),
      (∀ raw ∈ ins, ¬(classStartB (pyStrip raw) = true ∧
        extractedName (pyStrip raw) = strL "User")) →
      s.found_user_table = false →
      (ins.foldl step s).found_user_table = false := by
  intro ins
  induction ins with
  | nil =>
    intro s _ h
    exact h
  | cons a t ih =>
    intro s hU h
    rw [List.foldl_cons]
    apply ih _ (fun raw hr => hU raw (List.mem_cons_of_mem a hr))
    rcases step_found_user_eq s a with he | ⟨he, hcb⟩
    · rw [he]
      exact h
    · rw [he, h, Bool.false_or, decide_eq_false_iff_not]
      exact fun hx => (hU a (List.mem_cons_self a t)) ⟨hcb, hx⟩

/-- Scanning lines none of which starts a `Group`-named declaration leaves
the found-group flag unset. -/
theorem foldl_found_group_false :
    ∀ (ins : List Line) (s : ConvState),
      (∀ raw ∈ ins, ¬(classStartB (pyStrip raw) = true ∧
        extractedName (pyStrip raw) = strL "Group")) →
      s.found_group_table = false →
      (ins.foldl step s).found_group_table = false := by
  intro ins
  induction ins with
  | nil =>
    intro s _ h
    exact h
  | cons a t ih =>
    intro s hU h
    rw [List.foldl_cons]
    apply ih _ (fun raw hr => hU raw (List.mem_cons_of_mem a hr))
    rcases step_found_group_eq s a with he | ⟨he, hcb⟩
    · rw [he]
      exact h
    · rw [he, h, Bool.false_or, decide_eq_false_iff_not]
      exact fun hx => (hU a (List.mem_cons_self a t)) ⟨hcb, hx⟩

/-- The scan of an input with no `User`-named declaration start satisfies
the no-identity invariant. -/
theorem runLines_NoUserInv (ins : List Line)
    (hU : ∀ raw ∈ ins, ¬(classStartB (pyStrip raw) = true ∧
      extractedName (pyStrip raw) = strL "User")) :
    NoUserInv (runLines ins) := by
  have hinit : NoUserInv initState := by
    right
    refine ⟨rfl, rfl, ?_, ?_⟩
    · intro hx
      exact Bool.noConfusion hx
    · intro _
      exact ⟨rfl, Or.inl rfl⟩
  unfold runLines
  have main : ∀ (l : List Line) (s : ConvState),
      (∀ raw ∈ l, ¬(classStartB (pyStrip raw) = true ∧
        extractedName (pyStrip raw) = strL "User")) →
      NoUserInv s → NoUserInv (l.foldl step s) := by
    intro l
    induction l with
    | nil =>
      intro s _ h
      exact h
    | cons a t ih =>
      intro s hU2 h
      rw [List.foldl_cons]
      exact ih _ (fun raw hr => hU2 raw (List.mem_cons_of_mem a hr))
        (step_NoUserInv s a (hU2 a (List.mem_cons_self a t)) h)
  exact main ins initState hU hinit

/-- The found flags survive the trailing close. -/
theorem finalState_found (ins : List Line) :
    (finalState ins).found_user_table = (runLines ins).found_user_table ∧
    (finalState ins).found_group_table = (runLines ins).found_group_table ∧
    (finalState ins).got_custom_tables = (runLines ins).got_custom_tables ∧
    (finalState ins).aborted = (runLines ins).aborted := by
  unfold finalState
  dsimp only
  repeat' split
  all_goals exact ⟨rfl, rfl, rfl, rfl⟩

/-- After converting an input with no `User`-named declaration start, the
emitted declaration lines contain no identity header. -/
theorem finalState_count_user (ins : List Line)
    (hU : ∀ raw ∈ ins, ¬(classStartB (pyStrip raw) = true ∧
      extractedName (pyStrip raw) = strL "User"))
    (hab : (finalState ins).aborted = false) :
    (finalState ins).out_lines.countP
      (fun ln => decide (ln = headerTarget)) = 0 ∧
    (finalState ins).found_user_table = false := by
  have hinv := runLines_NoUserInv ins hU
  have habr : (runLines ins).aborted = false := by
    rw [← (finalState_found ins).2.2.2]
    exact hab
  rcases hinv with hx | ⟨hfu, hout, hinm, hninm⟩
  · exact absurd hx (by rw [habr] at hx; exact Bool.noConfusion hx)
  constructor
  · unfold finalState
    dsimp only
    rw [habr]
    simp only [Bool.false_eq_true, if_false]
    by_cases hlc : (runLines ins).last_model_closed = true
    · rw [if_pos hlc]
      exact hout
    · have hlc' : (runLines ins).last_model_closed = false := by
        revert hlc
        cases (runLines ins).last_model_closed <;> simp
      rw [hlc']
      simp only [Bool.false_eq_true, if_false]
      show ((runLines ins).out_lines ++ closeBlock (runLines ins)).countP
        (fun ln => decide (ln = headerTarget)) = 0
      rw [List.countP_append, hout]
      by_cases him : (runLines ins).in_model_def = true
      · obtain ⟨hmn, hdf, hcm⟩ := hinm him
        rw [closeBlock_no_header _ hmn hdf hcm]
      · have him' : (runLines ins).in_model_def = false := by
          revert him
          cases (runLines ins).in_model_def <;> simp
        obtain ⟨hcm0, hcu⟩ := hninm him'
        rcases hcu with hcu | hcu
        · have hcb : closeBlock (runLines ins) = [strL "\x7d", []] := by
            unfold closeBlock
            rw [hcu, hcm0]
            simp
          rw [hcb]
          decide
        · exact absurd (hlc'.symm.trans hcu) (by decide)
  · rw [(finalState_found ins).1]
    exact foldl_found_user_false ins initState hU rfl

/-- C8: for every input containing no `User`-named declaration start and
every toggle combination, the output of a completed conversion contains the
default identity header exactly once when the identity toggle is enabled and
not at all when it is disabled, and with the toggle enabled the full fixed
identity block appears contiguously — in both cases for either value of the
group toggle. -/
theorem c8_identity_toggle (ins : List Line) (hf u g : Bool) (r : ConvResult)
    (hU : ∀ raw ∈ ins, ¬(classStartB (pyStrip raw) = true ∧
      extractedName (pyStrip raw) = strL "User"))
    (hr : convertLines ins hf u g = some r) :
    r.lines.countP (fun ln => decide (ln = headerTarget)) =
      (if u then 1 else 0) ∧
    (u = true → userModelLines <:+: r.lines) := by
  unfold convertLines at hr
  dsimp only at hr
  by_cases hab : (finalState ins).aborted = true
  · rw [if_pos hab] at hr
    exact Option.noConfusion hr
  have hab' : (finalState ins).aborted = false := by
    revert hab
    cases (finalState ins).aborted <;> simp
  rw [if_neg hab] at hr
  injection hr with h2
  subst h2
  have hcount := (finalState_count_user ins hU hab').1
  have hfu := (finalState_count_user ins hU hab').2
  constructor
  · dsimp only
    rw [List.countP_append, hcount, Nat.add_zero]
    unfold outPrefix
    rw [hfu]
    simp only [Bool.not_false, Bool.true_and, List.countP_append]
    have h1 : List.countP (fun ln => decide (ln = headerTarget))
        importsLines = 0 := by decide
    have h2 : List.countP (fun ln => decide (ln = headerTarget))
        tableHelperLines = 0 := by decide
    have h3 : List.countP (fun ln => decide (ln = headerTarget))
        userModelLines = 1 := by decide
    have h4 : List.countP (fun ln => decide (ln = headerTarget))
        groupModelLines = 0 := by decide
    repeat' split
    all_goals simp only [h1, h2, h3, h4, List.countP_nil]
  · intro hu
    refine ⟨(if hf then importsLines else []) ++
        (if (finalState ins).got_custom_tables then tableHelperLines else []),
        (if !(finalState ins).found_group_table && g then groupModelLines
         else []) ++ (finalState ins).out_lines, ?_⟩
    dsimp only
    simp [outPrefix, hfu, hu, List.append_assoc]

/-- C8 witness: converting the `UserProfile`/`Users` input with the identity
toggle enabled yields exactly one identity header and the full identity
block. -/
theorem c8_identity_toggle_witness :
    (∀ raw ∈ exOtherNames, ¬(classStartB (pyStrip raw) = true ∧
      extractedName (pyStrip raw) = strL "User")) ∧
    ((convertLines exOtherNames true true false).getD ⟨[], []⟩).lines.countP
      (fun ln => decide (ln = headerTarget)) = 1 ∧
    userModelLines <:+:
      ((convertLines exOtherNames true true false).getD ⟨[], []⟩).lines := by
  have hU : ∀ raw ∈ exOtherNames, ¬(classStartB (pyStrip raw) = true ∧
      extractedName (pyStrip raw) = strL "User") := by decide
  have hr : convertLines exOtherNames true true false =
      some ((convertLines exOtherNames true true false).getD ⟨[], []⟩) := by
    decide
  have h := c8_identity_toggle exOtherNames true true false _ hU hr
  exact ⟨hU, h.1, h.2 rfl⟩

/-- C9: the suppression flags stay unset whenever no declaration start
extracts exactly the name `User` (resp. `Group`), so on such inputs each
default block is still emitted whenever its toggle is enabled. -/
theorem c9_flag_exact_names (ins : List Line) (hf u g : Bool) (r : ConvResult)
    (hU : ∀ raw ∈ ins, ¬(classStartB (pyStrip raw) = true ∧
      extractedName (pyStrip raw) = strL "User"))
    (hG : ∀ raw ∈ ins, ¬(classStartB (pyStrip raw) = true ∧
      extractedName (pyStrip raw) = strL "Group"))
    (hr : convertLines ins hf u g = some r) :
    (finalState ins).found_user_table = false ∧
    (finalState ins).found_group_table = false ∧
    (u = true → userModelLines <:+: r.lines) ∧
    (g = true → groupModelLines <:+: r.lines) := by
  have hfu : (finalState ins).found_user_table = false := by
    rw [(finalState_found ins).1]
    exact foldl_found_user_false ins initState hU rfl
  have hfg : (finalState ins).found_group_table = false := by
    rw [(finalState_found ins).2.1]
    exact foldl_found_group_false ins initState hG rfl
  unfold convertLines at hr
  dsimp only at hr
  by_cases hab : (finalState ins).aborted = true
  · rw [if_pos hab] at hr
    exact Option.noConfusion hr
  rw [if_neg hab] at hr
  injection hr with h2
  subst h2
  refine ⟨hfu, hfg, ?_, ?_⟩
  · intro hu
    refine ⟨(if hf then importsLines else []) ++
        (if (finalState ins).got_custom_tables then tableHelperLines else []),
        (if !(finalState ins).found_group_table && g then groupModelLines
         else []) ++ (finalState ins).out_lines, ?_⟩
    dsimp only
    simp [outPrefix, hfu, hu, List.append_assoc]
  · intro hg
    refine ⟨(if hf then importsLines else []) ++
        ((if (finalState ins).got_custom_tables then tableHelperLines
          else []) ++
         (if !(finalState ins).found_user_table && u then userModelLines
          else [])),
        (finalState ins).out_lines, ?_⟩
    dsimp only
    simp [outPrefix, hfg, hg, List.append_assoc]

/-- C9 witness: on the `UserProfile`/`Users` input both suppression flags
stay unset and both default blocks are emitted with both toggles enabled. -/
theorem c9_flag_exact_names_witness :
    (finalState exOtherNames).found_user_table = false ∧
    (finalState exOtherNames).found_group_table = false ∧
    userModelLines <:+:
      ((convertLines exOtherNames true true true).getD ⟨[], []⟩).lines ∧
    groupModelLines <:+:
      ((convertLines exOtherNames true true true).getD ⟨[], []⟩).lines := by
  have hU : ∀ raw ∈ exOtherNames, ¬(classStartB (pyStrip raw) = true ∧
      extractedName (pyStrip raw) = strL "User") := by decide
  have hG : ∀ raw ∈ exOtherNames, ¬(classStartB (pyStrip raw) = true ∧
      extractedName (pyStrip raw) = strL "Group") := by decide
  have hr : convertLines exOtherNames true true true =
      some ((convertLines exOtherNames true true true).getD ⟨[], []⟩) := by
    decide
  have h := c9_flag_exact_names exOtherNames true true true _ hU hG hr
  exact ⟨h.1, h.2.1, h.2.2.1 rfl, h.2.2.2 rfl⟩
